import Mathlib

/-!
# Formal model of the ABM_ClassroomSeating simulation engine

A shallow embedding of `model.py` (classes `Student`, `Seat`,
`ClassroomModel`, `ClassroomDesign`).  Python floats are modelled by `ℚ`,
coordinates by `ℕ × ℕ`, and fallible computations (Python exceptions such
as `ZeroDivisionError`, `NameError`, `ValueError`, `AttributeError`,
`IndexError`) by `Option`, with `none` standing for a raised exception.
`np.infty` (used as the occupant count for a side with no aisle) is
modelled by `Option ℕ` with `none` for the infinite count.
-/

set_option allowUnsafeReducibility true
attribute [local semireducible] Rat.add Rat.sub Rat.neg Rat.mul Rat.div Rat.inv Rat.normalize Rat.blt

namespace ABM

/-! ## Basic list and matrix helpers (numpy operations used by the source) -/

/-- Evaluate `f` on each list element, propagating a raised exception
(models a Python list comprehension whose body may raise). -/
def mapOpt {α β : Type} (f : α → Option β) : List α → Option (List β)
  | [] => some []
  | a :: t =>
    match f a, mapOpt f t with
    | some b, some bs => some (b :: bs)
    | _, _ => none

/-- Maximum of a list of rationals; `np.max` on a nonempty array
(the empty case never arises at the call sites modelled here). -/
def maxList : List ℚ → ℚ
  | [] => 0
  | h :: t => t.foldl max h

/-- `min` of a list, as Python `min(seq)`: fails (`ValueError`) on empty input. -/
def listMin : List ℚ → Option ℚ
  | [] => none
  | h :: t => some (t.foldl min h)

/-- `max` of a list, as Python `max(seq)`: fails (`ValueError`) on empty input. -/
def listMax : List ℚ → Option ℚ
  | [] => none
  | h :: t => some (t.foldl max h)

/-- Maximum of a list of integers, as Python `max`: fails on empty input. -/
def listMaxZ : List ℤ → Option ℤ
  | [] => none
  | h :: t => some (t.foldl max h)

/-- Matrix entry lookup `m[i][j]` (indices are in range at all call sites). -/
def mget (m : List (List ℚ)) (i j : ℕ) : ℚ :=
  (((m.get? i).getD []).get? j).getD 0

/-- The `numpy` shape of a 2-D array given as a list of rows: `none` models a
ragged input (which numpy would not view as a 2-D array, so neither shape
comparison in the source can succeed on it). -/
def shapeOf (m : List (List ℚ)) : Option (ℕ × ℕ) :=
  if m.all (fun r => r.length = (m.headD []).length) then
    some (m.length, (m.headD []).length)
  else none

/-- `np.zeros((w, h))`. -/
def zerosMat (w h : ℕ) : List (List ℚ) :=
  List.replicate w (List.replicate h (0 : ℚ))

/-- `np.insert(m, x, 0, axis=0)`: insert an all-zero row at index `x`. -/
def insertZeroRow (m : List (List ℚ)) (x : ℕ) : List (List ℚ) :=
  m.take x ++ [List.replicate ((m.headD []).length) (0 : ℚ)] ++ m.drop x

/-- Append an all-zero row, `np.concatenate((m, np.zeros((1, cols))), axis=0)`. -/
def appendZeroRow (m : List (List ℚ)) : List (List ℚ) :=
  m ++ [List.replicate ((m.headD []).length) (0 : ℚ)]

/-- `np.insert(m, y, 0, axis=1)`: insert a zero column at index `y`. -/
def insertZeroCol (m : List (List ℚ)) (y : ℕ) : List (List ℚ) :=
  m.map (fun r => r.take y ++ [(0 : ℚ)] ++ r.drop y)

/-- Append a zero column, `np.concatenate((m, np.zeros((rows, 1))), axis=1)`. -/
def appendZeroCol (m : List (List ℚ)) : List (List ℚ) :=
  m.map (fun r => r ++ [(0 : ℚ)])

/-- Maximum entry of a matrix, `np.max(m)` (call sites guard nonemptiness). -/
def matMax (m : List (List ℚ)) : ℚ :=
  maxList m.flatten

/-- `m.T` for the fixed 3×3 interaction matrices of the source. -/
def transpose3 (m : List (List ℚ)) : List (List ℚ) :=
  (List.range 3).map (fun i => (List.range 3).map (fun j => mget m j i))

/-! ## The random stream

`np.random.RandomState(seed)` is an external PRNG; it is modelled as an
abstract stream of naturals determined by the seed.  The claims never depend
on the distribution of the stream, only on (a) its being a function of the
seed and (b) every residue being attainable by some stream. -/

/-- A stream of pseudo-random naturals. -/
def RNG : Type := ℕ → ℕ

/-- Deterministic stream derived from the seed (models `np.random.RandomState(seed)`). -/
def mkRNG (seed : ℕ) : RNG := fun i => seed + i

/-- Draw one value below `n` (models `randint(n)` / the index drawn by
`rand.choice` on a length-`n` array) and advance the stream. -/
def randNat (g : RNG) (n : ℕ) : ℕ × RNG :=
  (g 0 % n, fun i => g (i + 1))

/-! ## ClassroomDesign (`ClassroomDesign.__init__`, model.py lines 460-531) -/

/-- The classroom layout, as built by `ClassroomDesign.__init__`. -/
structure ClassroomDesign where
  width : ℕ
  num_rows : ℕ
  aisles_x : List ℕ
  aisles_y : List ℕ
  entrances : List (ℕ × ℕ)
  pos_utilities : List (List ℚ)
  max_pass : ℤ
  seat_count : ℕ

/-- Vertical aisle columns: one aisle after each block except the last
(`current_x` accumulation loop of the source). -/
def mkAislesX (blocks : List ℕ) : List ℕ :=
  (blocks.dropLast.foldl
    (fun (p : ℕ × List ℕ) b => (p.1 + b + 1, p.2 ++ [p.1 + b])) (0, [])).2

/-- Per-block maximal passage counts: `int((b-1)/2)` for inner blocks
(Python `int` truncates toward zero, as does `Int.div`), `b-1` for outer
blocks.  Values are integers and may be negative for empty outer blocks. -/
def maxPassList (blocks : List ℕ) : List ℤ :=
  (List.range blocks.length).map (fun i =>
    let b : ℤ := (blocks.getD i 0 : ℕ)
    if 0 < i ∧ i < blocks.length - 1 then Int.tdiv (b - 1) 2 else b - 1)

/-- Splice zero rows/columns into a reduced (aisle-stripped) utility matrix,
one per aisle index, appending when the index is beyond the current bounds
(the two `for` loops at lines 502-511). -/
def spliceZeros (m : List (List ℚ)) (axs ays : List ℕ) : List (List ℚ) :=
  let m1 := axs.foldl (fun acc x =>
    if x < acc.length then insertZeroRow acc x else appendZeroRow acc) m
  ays.foldl (fun acc y =>
    if y < (acc.headD []).length then insertZeroCol acc y else appendZeroCol acc) m1

/-- `ClassroomDesign.__init__`.  `none` models a raised exception:
the source evaluates `pos_utilities.shape` before any `is not None` check,
so a missing utility matrix raises `AttributeError`; an empty block list
makes `max(max_pass_per_block)` raise `ValueError`. -/
def mkClassroomDesign (blocks : List ℕ) (num_rows : ℕ)
    (pos_utilities : Option (List (List ℚ))) (entrances : Option (List (ℕ × ℕ)))
    (aisles_y : Option (List ℕ)) : Option ClassroomDesign :=
  let width := blocks.sum + blocks.length - 1
  let axs := mkAislesX blocks
  let ays := aisles_y.getD [0]
  let ents := entrances.getD [(0, 0), (width - 1, 0)]
  match pos_utilities with
  | none => none
  | some m0 =>
    let m1 := if shapeOf m0 = some (width - axs.length, num_rows - ays.length)
      then spliceZeros m0 axs ays else m0
    let pu := if shapeOf m1 = some (width, num_rows) ∧ 0 < matMax m1
      then m1.map (fun r => r.map (fun v => v / matMax m1))
      else zerosMat width num_rows
    match listMaxZ (maxPassList blocks) with
    | none => none
    | some mp =>
      some { width := width, num_rows := num_rows, aisles_x := axs, aisles_y := ays,
             entrances := ents, pos_utilities := pu, max_pass := mp,
             seat_count := (width - axs.length) * (num_rows - ays.length) }

/-! ## Agents and model state (`Student`, `Seat`, `ClassroomModel.__init__`) -/

/-- A student agent (`Student.__init__`): created unseated, with
`initial_happiness = 0`, `will_to_change_seat = False` (never mutated). -/
structure Student where
  unique_id : ℕ
  sociability : ℚ
  seated : Bool
  pos : ℕ × ℕ
  initial_happiness : ℚ
  will_to_change_seat : Bool
deriving DecidableEq

/-- A seat agent: a fixed grid cell holding at most one student id. -/
structure Seat where
  pos : ℕ × ℕ
  student : Option ℕ
deriving DecidableEq

/-- The mutable model state (`ClassroomModel`).  `students` is the scheduler
roster in arrival order; `seats` is the seat list in grid-iteration order
(x outer, y inner, as created by `__init__`).  The social network matrix is
a function of two ids. -/
structure ModelState where
  classroom : ClassroomDesign
  coefs : List ℚ
  random_seat_choice : Bool
  social_network : ℕ → ℕ → ℚ
  max_num_agents : ℕ
  sociability_sequence : List ℚ
  sociability_range : ℚ × ℚ
  friendship_interaction_matrix : List (List ℚ)
  sociability_interaction_matrix : List (List ℚ)
  seats : List Seat
  students : List Student
  rng : RNG

/-- Seats created by `ClassroomModel.__init__`: one per non-aisle cell,
iterating x (outer) then y (inner) and skipping aisle columns and rows. -/
def mkSeats (cd : ClassroomDesign) : List Seat :=
  (((List.range cd.width).filter (fun x => ¬ x ∈ cd.aisles_x)).map (fun x =>
    ((List.range cd.num_rows).filter (fun y => ¬ y ∈ cd.aisles_y)).map (fun y =>
      ({ pos := (x, y), student := none } : Seat)))).flatten

/-- The Python expression `np.all(coefs == 0)` at model.py line 355.
`coefs` is a plain Python list, and `list == 0` compares a list with an
integer, which yields the single boolean `False` (no elementwise
broadcasting happens for the built-in `int` 0); `np.all(False)` is `False`.
So the flag is `false` for every coefficient list. -/
def npAllCoefsEqZero (_coefs : List ℚ) : Bool :=
  false

/-- `ClassroomModel.__init__`.  The external `social.network` module (not
part of the repository sources) is abstracted by the two generator
parameters `gen_er` (Erdos-Renyi, used when no degree sequence is given)
and `gen_walts` (`walts_graph`).  `none` models a raised exception:
the default-sociability branch references the names `SOCIABILITY_MIN` and
`SOCIABILITY_MAX`, which are defined nowhere in the module (`NameError`);
a supplied sequence of the wrong length raises `ValueError`;
`min`/`max` of an empty sequence raise `ValueError`. -/
def initModel (classroom : ClassroomDesign) (coefs : List ℚ)
    (degree_sequence : Option (List ℕ)) (sociability_sequence : Option (List ℚ))
    (seed : ℕ) (gen_er : ℕ → ℚ → ℕ → ℕ → ℚ) (gen_walts : List ℕ → ℕ → ℕ → ℚ) :
    Option ModelState :=
  let rand := mkRNG seed
  let total := coefs.sum
  let ncoefs := coefs.map (fun c => if 0 < total then c / total else 0)
  let rsc := npAllCoefsEqZero coefs
  let mna := match degree_sequence with
    | none => classroom.seat_count
    | some ds => ds.length
  let net := match degree_sequence with
    | none => gen_er classroom.seat_count (2 / 10)
    | some ds => gen_walts ds
  match sociability_sequence with
  | none => none
  | some seq =>
    if seq.length = mna then
      match listMin seq, listMax seq with
      | some lo, some hi =>
        some { classroom := classroom, coefs := ncoefs, random_seat_choice := rsc,
               social_network := net, max_num_agents := mna,
               sociability_sequence := seq, sociability_range := (lo, hi),
               friendship_interaction_matrix :=
                 transpose3 [[0, 0, 0], [1/2, 0, 1/2], [0, 0, 0]],
               sociability_interaction_matrix :=
                 transpose3 [[0, 0, 0], [1/2, 0, 1/2], [0, 0, 0]],
               seats := mkSeats classroom, students := [], rng := rand }
      | _, _ => none
    else none

/-! ## Seat utility computations (`Seat` methods) -/

/-- `grid.get_cell_list_contents([c])` restricted to agents of type
`Student` (every call site filters on the agent type). -/
def cellStudents (s : ModelState) (c : ℕ × ℕ) : List Student :=
  s.students.filter (fun st => st.pos = c)

/-- `Seat.get_position_utility`: direct lookup in the layout's matrix. -/
def get_position_utility (s : ModelState) (seat : Seat) : ℚ :=
  mget s.classroom.pos_utilities seat.pos.1 seat.pos.2

/-- The aisle-and-distance pairs `(a, x - a)` built from
`dist_to_aisles = [(x - i) for i in aisles_x]`. -/
def distPairs (axs : List ℕ) (x : ℕ) : List (ℕ × ℤ) :=
  axs.map (fun a => (a, (x : ℤ) - (a : ℤ)))

/-- First element with minimal second component (`np.argmin` keeps the first
occurrence of the minimum). -/
def argminSnd (l : List (ℕ × ℤ)) : Option (ℕ × ℤ) :=
  l.foldl (fun acc p => match acc with
    | none => some p
    | some q => if p.2 < q.2 then some p else some q) none

/-- Nearest aisle strictly to the left of column `x` (the aisle among those
with positive distance minimizing that distance), if any. -/
def aisleLeft (axs : List ℕ) (x : ℕ) : Option ℕ :=
  (argminSnd ((distPairs axs x).filter (fun p => 0 < p.2))).map (fun p => p.1)

/-- Nearest aisle strictly to the right of column `x` (negative distance,
minimal absolute value), if any. -/
def aisleRight (axs : List ℕ) (x : ℕ) : Option ℕ :=
  (argminSnd (((distPairs axs x).filter (fun p => p.2 < 0)).map
    (fun p => (p.1, |p.2|)))).map (fun p => p.1)

/-- Number of students standing on the cells strictly between the nearest
left aisle and column `x` in row `y`; `none` models `np.infty` when no
aisle exists on that side. -/
def countLeft (s : ModelState) (x y : ℕ) : Option ℕ :=
  match aisleLeft s.classroom.aisles_x x with
  | none => none
  | some al =>
    some (((List.range' (al + 1) (x - (al + 1))).map
      (fun i => (cellStudents s (i, y)).length)).sum)

/-- Number of students standing strictly between column `x` and the nearest
right aisle in row `y`; `none` models `np.infty`. -/
def countRight (s : ModelState) (x y : ℕ) : Option ℕ :=
  match aisleRight s.classroom.aisles_x x with
  | none => none
  | some ar =>
    some (((List.range' (x + 1) (ar - (x + 1))).map
      (fun i => (cellStudents s (i, y)).length)).sum)

/-- The value of a Python float expression in this model: an exact
rational, one of the two infinities (produced by `1 - inf/max_pass` when
both sides of a seat lack an aisle), or `nan` (produced by `0 * inf`).
Python float equality makes `nan` unequal to everything, itself
included. -/
inductive PyFloat where
  | num (q : ℚ)
  | negInf
  | posInf
  | nan
deriving DecidableEq

/-- Python float `==` on these values: `nan` compares unequal to
everything (itself included), the infinities compare equal to themselves,
numbers compare as rationals. -/
def pyEq (a b : PyFloat) : Bool :=
  match a, b with
  | PyFloat.num x, PyFloat.num y => x = y
  | PyFloat.negInf, PyFloat.negInf => true
  | PyFloat.posInf, PyFloat.posInf => true
  | _, _ => false

/-- Python float `<=`: false whenever either side is `nan`. -/
def pyLe (a b : PyFloat) : Bool :=
  match a, b with
  | PyFloat.nan, _ => false
  | _, PyFloat.nan => false
  | PyFloat.negInf, _ => true
  | PyFloat.num _, PyFloat.negInf => false
  | PyFloat.num x, PyFloat.num y => x ≤ y
  | PyFloat.num _, PyFloat.posInf => true
  | PyFloat.posInf, PyFloat.posInf => true
  | PyFloat.posInf, _ => false

/-- `np.maximum` of two float values: `nan` propagates, otherwise the
larger value under the float order. -/
def pyMax (a b : PyFloat) : PyFloat :=
  match a, b with
  | PyFloat.nan, _ => PyFloat.nan
  | _, PyFloat.nan => PyFloat.nan
  | PyFloat.posInf, _ => PyFloat.posInf
  | _, PyFloat.posInf => PyFloat.posInf
  | PyFloat.num x, PyFloat.num y => PyFloat.num (max x y)
  | PyFloat.num x, PyFloat.negInf => PyFloat.num x
  | PyFloat.negInf, PyFloat.num y => PyFloat.num y
  | PyFloat.negInf, PyFloat.negInf => PyFloat.negInf

/-- `np.max` of a float array: reduces with `np.maximum`, so a `nan`
anywhere makes the maximum `nan`.  `np.max` of an empty array raises; the
one call site is guarded by a nonemptiness check, so the `[]` value here is
never observed. -/
def maxPy : List PyFloat → PyFloat
  | [] => PyFloat.nan
  | h :: t => t.foldl pyMax h

/-- Multiplication of a float value by the exact coefficient `c`
(`coef_a * accessibility`): `0 * (±inf)` is `nan`, a nonzero coefficient
flips or keeps the infinity by its sign. -/
def pyScale (c : ℚ) (v : PyFloat) : PyFloat :=
  match v with
  | PyFloat.num q => PyFloat.num (c * q)
  | PyFloat.negInf =>
    if 0 < c then PyFloat.negInf else if c < 0 then PyFloat.posInf else PyFloat.nan
  | PyFloat.posInf =>
    if 0 < c then PyFloat.posInf else if c < 0 then PyFloat.negInf else PyFloat.nan
  | PyFloat.nan => PyFloat.nan

/-- Addition of an exact number and a float value (the finite first three
utility terms plus the accessibility term). -/
def pyAddNum (q : ℚ) (v : PyFloat) : PyFloat :=
  match v with
  | PyFloat.num a => PyFloat.num (q + a)
  | PyFloat.negInf => PyFloat.negInf
  | PyFloat.posInf => PyFloat.posInf
  | PyFloat.nan => PyFloat.nan

/-- `Seat.get_accessibility`: `1 - min(count_right, count_left) / max_pass`.
`none` models the `ZeroDivisionError` raised when `max_pass = 0` (Python
float division by zero raises for any numerator, infinite ones included).
When both sides lack an aisle the source computes `1 - inf/max_pass` and
**proceeds with the value** `-inf` (`+inf` for a negative `max_pass`) —
a value path, not an error path. -/
def get_accessibility (s : ModelState) (seat : Seat) : Option PyFloat :=
  let cl := countLeft s seat.pos.1 seat.pos.2
  let cr := countRight s seat.pos.1 seat.pos.2
  if s.classroom.max_pass = 0 then none
  else match cl, cr with
    | some a, some b =>
      some (PyFloat.num (1 - ((min b a : ℕ) : ℚ) / (s.classroom.max_pass : ℚ)))
    | some a, none => some (PyFloat.num (1 - (a : ℚ) / (s.classroom.max_pass : ℚ)))
    | none, some b => some (PyFloat.num (1 - (b : ℚ) / (s.classroom.max_pass : ℚ)))
    | none, none =>
      some (if 0 < s.classroom.max_pass then PyFloat.negInf else PyFloat.posInf)

/-- The last seated student listed in cell `c`, if the (integer) coordinates
are on the grid: models the inner loop of `Seat.get_neighborhood`, where
each seated student in the cell overwrites `neighborhood[i,j]`. -/
def seatedAt (s : ModelState) (c : ℤ × ℤ) : Option ℕ :=
  if 0 ≤ c.1 ∧ c.1 < (s.classroom.width : ℤ) ∧ 0 ≤ c.2 ∧ c.2 < (s.classroom.num_rows : ℤ) then
    (s.students.filter (fun st =>
      ((st.pos.1 : ℤ), (st.pos.2 : ℤ)) = c ∧ st.seated)).foldl
      (fun _ st => some st.unique_id) none
  else none

/-- `Seat.get_neighborhood`: the id of the seated student at window offset
`(i, j)` of an (odd-forced) `size_x × size_y` window centred on `pos`
(`none` = the `-1` marker for an empty or out-of-bounds cell). -/
def get_neighborhood (s : ModelState) (pos : ℕ × ℕ) (size_x size_y : ℕ)
    (i j : ℕ) : Option ℕ :=
  let sx := if size_x % 2 = 0 then size_x - 1 else size_x
  let sy := if size_y % 2 = 0 then size_y - 1 else size_y
  if i < sx ∧ j < sy then
    seatedAt s ((pos.1 : ℤ) + (i : ℤ) - ((sx / 2 : ℕ) : ℤ),
                (pos.2 : ℤ) + (j : ℤ) - ((sy / 2 : ℕ) : ℤ))
  else none

/-- One iteration of the accumulation loop of `Seat.get_social_utility`:
add the friendship contribution of the window cell `xy`, and when the
neighbor is a stranger (tie strength exactly 0) the sociability
contribution. -/
def socialStep (s : ModelState) (st : Student) (pos : ℕ × ℕ) (ix iy : ℕ)
    (p : ℚ × ℚ) (xy : ℕ × ℕ) : ℚ × ℚ :=
  match get_neighborhood s pos ix iy xy.1 xy.2 with
  | some nid =>
    let friendship := s.social_network st.unique_id nid
    (p.1 + mget s.friendship_interaction_matrix xy.1 xy.2 * friendship,
     if friendship = 0 then
       p.2 + mget s.sociability_interaction_matrix xy.1 xy.2 * st.sociability
     else p.2)
  | none => p

/-- The accumulation loop of `Seat.get_social_utility` over the interaction
window: returns the raw `(u_friendship, u_sociability)` pair. -/
def socialAccum (s : ModelState) (st : Student) (pos : ℕ × ℕ) : ℚ × ℚ :=
  let ix := s.friendship_interaction_matrix.length
  let iy := (s.friendship_interaction_matrix.headD []).length
  (((List.range ix).map (fun x => (List.range iy).map (fun y => (x, y)))).flatten).foldl
    (socialStep s st pos ix iy) (0, 0)

/-- `Seat.get_social_utility`: the raw pair, with the sociability term
rescaled by the run's sociability range.  `none` models the
`ZeroDivisionError` raised when `s_max = s_min`. -/
def get_social_utility (s : ModelState) (st : Student) (seat : Seat) :
    Option (ℚ × ℚ) :=
  let p := socialAccum s st seat.pos
  if s.sociability_range.2 - s.sociability_range.1 = 0 then none
  else some (p.1, (p.2 - s.sociability_range.1) /
    (s.sociability_range.2 - s.sociability_range.1))

/-- `Seat.get_total_utility`: weighted sum of the four components.  `none`
models an exception in a sub-computation, or the `ValueError` from unpacking
a coefficient list whose length is not 4.  The first three terms are always
finite; the accessibility term can be `-inf` (no aisle on either side), so
`coef_a * accessibility` and the final sum follow float arithmetic:
`0 * (-inf) = nan`, `finite + (-inf) = -inf`, `finite + nan = nan`. -/
def get_total_utility (s : ModelState) (st : Student) (seat : Seat) :
    Option PyFloat :=
  match get_social_utility s st seat with
  | none => none
  | some fs =>
    match s.coefs with
    | [coef_p, coef_f, coef_s, coef_a] =>
      match get_accessibility s seat with
      | none => none
      | some a =>
        some (pyAddNum (coef_p * get_position_utility s seat + coef_f * fs.1 +
              coef_s * fs.2) (pyScale coef_a a))
    | _ => none

/-- `Seat.get_happiness`: the same weighted sum without the accessibility
term. -/
def get_happiness (s : ModelState) (st : Student) (seat : Seat) : Option ℚ :=
  match get_social_utility s st seat with
  | none => none
  | some fs =>
    match s.coefs with
    | [coef_p, coef_f, coef_s, _] =>
      some (coef_p * get_position_utility s seat + coef_f * fs.1 + coef_s * fs.2)
    | _ => none

/-! ## The seat-selection procedure (`Student.choose_seat`) -/

/-- Placeholder seat for the (never-taken) out-of-range list access. -/
def dummySeat : Seat := { pos := (0, 0), student := none }

/-- The unoccupied seats, collected by iterating the grid
(`coord_iter`, x outer then y inner — the order in which `seats` is kept). -/
def seat_options (s : ModelState) : List Seat :=
  s.seats.filter (fun seat => seat.student = none)

/-- The maximal seats: `np.array(seat_options)[np.where(seat_utilities == np.max(seat_utilities))]`.
Float comparison: a `nan` utility is never equal to the maximum (and a `nan`
anywhere makes the maximum `nan`, emptying this list). -/
def maximizers (opts : List Seat) (utils : List PyFloat) : List Seat :=
  ((opts.zip utils).filter (fun p => pyEq p.2 (maxPy utils))).map (fun p => p.1)

/-- `rand.choice` among the maximal seats, threading the stream. -/
def select_max (opts : List Seat) (utils : List PyFloat) (g : RNG) : Seat × RNG :=
  let ms := maximizers opts utils
  let kg := randNat g ms.length
  ((ms.get? kg.1).getD dummySeat, kg.2)

/-- The commit step of `choose_seat` (lines 101-111): record the student on
the seat, move the student, compute `initial_happiness` on the updated
state (the student is still unseated there, exactly as in the source, where
`self.seated = True` runs after `get_happiness`), then set `seated`. -/
def commit_seat (s : ModelState) (st : Student) (seat : Seat) : Option ModelState :=
  let s1 : ModelState :=
    { s with
      seats := s.seats.map (fun t =>
        if t.pos = seat.pos then { t with student := some st.unique_id } else t),
      students := s.students.map (fun t =>
        if t.unique_id = st.unique_id then { t with pos := seat.pos } else t) }
  match get_happiness s1 { st with pos := seat.pos } seat with
  | none => none
  | some h =>
    some { s1 with students := s1.students.map (fun t =>
      if t.unique_id = st.unique_id then
        { t with initial_happiness := h, seated := true } else t) }

/-- `Student.choose_seat`.  `seat_pos = none` is the utility-driven (or
uniform-random) mode; `seat_pos = some p` is the predetermined mode.  The
`old_seat` re-seating variant is not modelled: it is reachable only through
the `will_to_change_seat` branch, which is dead (see `student_step`).
With no empty seat the source only prints a message and returns with no
state change. -/
def choose_seat (s : ModelState) (st : Student) (seat_pos : Option (ℕ × ℕ)) :
    Option ModelState :=
  match seat_pos with
  | none =>
    let opts := seat_options s
    if opts.isEmpty then some s
    else if s.random_seat_choice then
      let kg := randNat s.rng opts.length
      commit_seat { s with rng := kg.2 } st ((opts.get? kg.1).getD dummySeat)
    else
      match mapOpt (get_total_utility s st) opts with
      | none => none
      | some utils =>
        -- When every utility is nan (all-zero coefficients with no aisle
        -- anywhere), np.where matches nothing and rand.choice of the empty
        -- candidate array raises ValueError.
        if (maximizers opts utils).isEmpty then none
        else
          let cg := select_max opts utils s.rng
          commit_seat { s with rng := cg.2 } st cg.1
  | some p =>
    match (s.seats.filter (fun t => t.pos = p ∧ t.student = none)).foldl
        (fun _ t => some t) none with
    | some seat => commit_seat s st seat
    | none => some s

/-- `Student.step`: choose a seat when unseated.  The trailing
`will_to_change_seat` branch calls `Seat.get_stand_up_cost`, which is
defined nowhere in the module (an `AttributeError` if ever reached); the
flag is `False` at creation and never mutated, so the branch is dead and
modelled as a failure. -/
def student_step (s : ModelState) (st : Student) : Option ModelState :=
  match (if st.seated = false then choose_seat s st none else some s) with
  | none => none
  | some s1 => if st.will_to_change_seat then none else some s1

/-! ## Model stepping (`ClassroomModel.step`) -/

/-- The admission phase of `ClassroomModel.step`: while capacity remains,
create one student (consuming one sociability value iff `coefs[2] ≠ 0`) and
place it at a randomly drawn entrance.  `none` models `IndexError` on a
too-short coefficient list or an exhausted sociability deque, and the
`ValueError` of `randint(0)` on an empty entrance list. -/
def admit_student (s : ModelState) : Option ModelState :=
  let n := s.students.length
  if n < s.max_num_agents then
    match s.coefs.get? 2 with
    | none => none
    | some cs =>
      match (if cs ≠ 0 then
          (match s.sociability_sequence with
           | [] => none
           | v :: rest => some (v, rest))
        else some (0, s.sociability_sequence)) with
      | none => none
      | some sr =>
        if s.classroom.entrances.isEmpty then none
        else
          let kg := randNat s.rng s.classroom.entrances.length
          let pos := (s.classroom.entrances.get? kg.1).getD (0, 0)
          some { s with
            sociability_sequence := sr.2,
            students := s.students ++
              [{ unique_id := n, sociability := sr.1, seated := false,
                 pos := pos, initial_happiness := 0, will_to_change_seat := false }],
            rng := kg.2 }
  else some s

/-- The activation phase: `RandomActivation.step` runs each scheduled agent
exactly once per tick, in a randomized order; the order is modelled as the
roster order (no claim depends on it). -/
def activate_all (s : ModelState) : Option ModelState :=
  (s.students.map (fun st => st.unique_id)).foldlM
    (fun acc i =>
      match acc.students.find? (fun st => st.unique_id = i) with
      | none => none
      | some st => student_step acc st) s

/-- `ClassroomModel.step`: admission then activation. -/
def tick (s : ModelState) : Option ModelState :=
  (admit_student s).bind activate_all

/-- The full construction surface of a run (§6 of the spec): layout
arguments, utility coefficients, social inputs, seed, and the two external
network generators. -/
structure Config where
  blocks : List ℕ
  num_rows : ℕ
  pos_utilities : Option (List (List ℚ))
  entrances : Option (List (ℕ × ℕ))
  aisles_y : Option (List ℕ)
  coefs : List ℚ
  degree_sequence : Option (List ℕ)
  sociability_sequence : Option (List ℚ)
  seed : ℕ
  gen_er : ℕ → ℚ → ℕ → ℕ → ℚ
  gen_walts : List ℕ → ℕ → ℕ → ℚ

/-- Build the layout and the model from a configuration. -/
def buildModel (cfg : Config) : Option ModelState :=
  (mkClassroomDesign cfg.blocks cfg.num_rows cfg.pos_utilities cfg.entrances
    cfg.aisles_y).bind (fun cd =>
      initModel cd cfg.coefs cfg.degree_sequence cfg.sociability_sequence
        cfg.seed cfg.gen_er cfg.gen_walts)

/-- Iterate `tick`. -/
def runSteps : ℕ → Option ModelState → Option ModelState
  | 0, o => o
  | n + 1, o => runSteps n (o.bind tick)

/-- Construct the model and advance it by `n` ticks. -/
def runModel (cfg : Config) (n : ℕ) : Option ModelState :=
  runSteps n (buildModel cfg)

/-! ## Occupancy snapshot (`ClassroomModel.get_binary_model_state`) -/

/-- `get_binary_model_state`: ones at every cell holding some scheduled
student (seated or not), zeros elsewhere, with the aisle columns and rows
removed.  `np.delete` on an in-range index list equals filtering those
indices out, which is how the removal is modelled. -/
def get_binary_model_state (s : ModelState) : List (List ℚ) :=
  ((List.range s.classroom.width).filter (fun x => ¬ x ∈ s.classroom.aisles_x)).map
    (fun x =>
      ((List.range s.classroom.num_rows).filter (fun y => ¬ y ∈ s.classroom.aisles_y)).map
        (fun y => if s.students.any (fun st => st.pos = (x, y)) then (1 : ℚ) else 0))

/-- The seat placed at coordinate `c`, if any. -/
def seat_at (s : ModelState) (c : ℕ × ℕ) : Option Seat :=
  s.seats.find? (fun t => t.pos = c)

/-- The seat-occupancy indicator over the non-aisle cells: the declarative
description of the exported snapshot (1 exactly where the seat is occupied). -/
def occupied_matrix (s : ModelState) : List (List ℚ) :=
  ((List.range s.classroom.width).filter (fun x => ¬ x ∈ s.classroom.aisles_x)).map
    (fun x =>
      ((List.range s.classroom.num_rows).filter (fun y => ¬ y ∈ s.classroom.aisles_y)).map
        (fun y =>
          match seat_at s (x, y) with
          | some t => if t.student.isSome then (1 : ℚ) else 0
          | none => 0))

/-! ## Declarative characterizations of accessibility (claim C3) -/

/-- Maximum of a list of naturals, if nonempty. -/
def listMaxN : List ℕ → Option ℕ
  | [] => none
  | h :: t => some (t.foldl max h)

/-- Minimum of a list of naturals, if nonempty. -/
def listMinN : List ℕ → Option ℕ
  | [] => none
  | h :: t => some (t.foldl min h)

/-- The nearest aisle strictly left of column `x`: the largest aisle column
below `x`, if any. -/
def nearestAisleLeft (axs : List ℕ) (x : ℕ) : Option ℕ :=
  listMaxN (axs.filter (fun a => a < x))

/-- The nearest aisle strictly right of column `x`: the smallest aisle
column above `x`, if any. -/
def nearestAisleRight (axs : List ℕ) (x : ℕ) : Option ℕ :=
  listMinN (axs.filter (fun a => x < a))

/-- Number of occupants (seated or not) standing in row `y` strictly
between columns `lo` and `hi`. -/
def occupantsBetween (s : ModelState) (y lo hi : ℕ) : ℕ :=
  s.students.countP (fun st => decide (lo < st.pos.1 ∧ st.pos.1 < hi ∧ st.pos.2 = y))

/-- Number of *seated* occupants in row `y` strictly between columns `lo`
and `hi` (the count named by the claim). -/
def seatedBetween (s : ModelState) (y lo hi : ℕ) : ℕ :=
  s.students.countP (fun st =>
    decide (st.seated = true ∧ lo < st.pos.1 ∧ st.pos.1 < hi ∧ st.pos.2 = y))

/-- The declarative form of the accessibility computation: `1` minus the
smaller of the two blocked-occupant counts toward the nearest aisles,
normalized by `max_pass`; a side with no aisle is unbounded (never the
minimum); with no aisle on either side the value is the float `-inf`
(`+inf` for a negative `max_pass`), a value the computation proceeds with;
only `max_pass = 0` fails (division by zero).  Counts include every
occupant standing on the cells, seated or not. -/
def accessibility_decl (s : ModelState) (seat : Seat) : Option PyFloat :=
  let x := seat.pos.1
  let y := seat.pos.2
  if s.classroom.max_pass = 0 then none
  else
    match nearestAisleLeft s.classroom.aisles_x x,
          nearestAisleRight s.classroom.aisles_x x with
    | some al, some ar =>
      some (PyFloat.num (1 -
        ((min (occupantsBetween s y x ar) (occupantsBetween s y al x) : ℕ) : ℚ) /
        (s.classroom.max_pass : ℚ)))
    | some al, none =>
      some (PyFloat.num (1 -
        ((occupantsBetween s y al x : ℕ) : ℚ) / (s.classroom.max_pass : ℚ)))
    | none, some ar =>
      some (PyFloat.num (1 -
        ((occupantsBetween s y x ar : ℕ) : ℚ) / (s.classroom.max_pass : ℚ)))
    | none, none =>
      some (if 0 < s.classroom.max_pass then PyFloat.negInf else PyFloat.posInf)

/-- The accessibility formula exactly as the claim words it: only
currently-seated occupants are counted. -/
def accessibility_spec (s : ModelState) (seat : Seat) : Option PyFloat :=
  let x := seat.pos.1
  let y := seat.pos.2
  if s.classroom.max_pass = 0 then none
  else
    match nearestAisleLeft s.classroom.aisles_x x,
          nearestAisleRight s.classroom.aisles_x x with
    | some al, some ar =>
      some (PyFloat.num (1 -
        ((min (seatedBetween s y x ar) (seatedBetween s y al x) : ℕ) : ℚ) /
        (s.classroom.max_pass : ℚ)))
    | some al, none =>
      some (PyFloat.num (1 -
        ((seatedBetween s y al x : ℕ) : ℚ) / (s.classroom.max_pass : ℚ)))
    | none, some ar =>
      some (PyFloat.num (1 -
        ((seatedBetween s y x ar : ℕ) : ℚ) / (s.classroom.max_pass : ℚ)))
    | none, none =>
      some (if 0 < s.classroom.max_pass then PyFloat.negInf else PyFloat.posInf)


/-! ## Run invariants (claim C9) -/

/-- Every seat of the state is occupied. -/
def allSeatsOccupied (s : ModelState) : Prop :=
  ∀ t ∈ s.seats, t.student ≠ none

/-- Some roster record with the given id is seated. -/
def idSeated (s : ModelState) (i : ℕ) : Prop :=
  ∃ st ∈ s.students, st.unique_id = i ∧ st.seated = true

/-- The state invariant maintained by every phase of a run: the seat list
covers exactly the non-aisle grid (its positions never change), ids are the
arrival indices, every seated student sits on a seat holding it, and every
occupied seat is held by a seated student positioned on it. -/
def Inv (s : ModelState) : Prop :=
  s.seats.map Seat.pos = (mkSeats s.classroom).map Seat.pos ∧
  s.students.map Student.unique_id = List.range s.students.length ∧
  (∀ st ∈ s.students, st.seated = true →
    ∃ t ∈ s.seats, t.student = some st.unique_id ∧ t.pos = st.pos) ∧
  (∀ t ∈ s.seats, ∀ i, t.student = some i →
    ∃ st ∈ s.students, st.unique_id = i ∧ st.seated = true ∧ st.pos = t.pos)

/-- A fully activated (post-tick) state: an unseated roster member implies a
full classroom. -/
def FullWhenUnseated (s : ModelState) : Prop :=
  (∃ st ∈ s.students, st.seated = false) → allSeatsOccupied s

/-! ## Placeholder values for `Option.getD` extraction in concrete runs -/

/-- Placeholder layout (never produced by `mkClassroomDesign` in the
concrete runs below; used only to extract from a `some`). -/
def defaultDesign : ClassroomDesign :=
  { width := 0, num_rows := 0, aisles_x := [], aisles_y := [], entrances := [],
    pos_utilities := [], max_pass := 0, seat_count := 0 }

/-- Placeholder model state (used only to extract from a `some`). -/
def defaultState : ModelState :=
  { classroom := defaultDesign, coefs := [], random_seat_choice := false,
    social_network := fun _ _ => 0, max_num_agents := 0,
    sociability_sequence := [], sociability_range := (0, 0),
    friendship_interaction_matrix := [], sociability_interaction_matrix := [],
    seats := [], students := [], rng := fun _ => 0 }

/-- Placeholder student (used only to extract from a `some`). -/
def defaultStudent : Student :=
  { unique_id := 0, sociability := 0, seated := false, pos := (0, 0),
    initial_happiness := 0, will_to_change_seat := false }

/-- The C3 state: layout `[3,0]` (aisle at column 3, seats at columns
0..2 of row 1), entrance **on the seat cell (1,1)**, one admitted and
still-unseated student standing there. -/
def mC3 : ModelState :=
  ((initModel ((mkClassroomDesign [3, 0] 2 (some (zerosMat 3 1)) (some [(1, 1)]) none).getD
      defaultDesign)
    [0, 0, 0, 1] (some [1, 1]) (some [0, 1]) 0
    (fun _ _ _ _ => 0) (fun _ _ _ => 0)).bind admit_student).getD defaultState

/-- The C1 witness state: position utilities `[[1],[2]]` (rescaled to 1/2
and 1), pure position coefficients, one admitted student about to choose. -/
def mC1 : ModelState :=
  ((initModel ((mkClassroomDesign [2, 0] 2 (some [[1], [2]]) none none).getD defaultDesign)
    [1, 0, 0, 0] (some [1, 1]) (some [0, 1]) 0
    (fun _ _ _ _ => 0) (fun _ _ _ => 0)).bind admit_student).getD defaultState

/-- The C1 counterexample state: utility-driven mode with a nonzero
sociability coefficient, two empty seats, and a *constant* sociability
sequence `[1,1]`, so the sampled range is `(1,1)` and the first utility
evaluation divides by zero. -/
def mC1x : ModelState :=
  ((initModel ((mkClassroomDesign [2, 0] 2 (some (zerosMat 2 1)) none none).getD defaultDesign)
    [0, 0, 1, 0] (some [1, 1]) (some [1, 1]) 0
    (fun _ _ _ _ => 0) (fun _ _ _ => 0)).bind admit_student).getD defaultState

/-- The C9 witness state: a two-seat classroom after two ticks (both
students seated). -/
def mC9 : ModelState :=
  (runModel
    { blocks := [2, 0], num_rows := 2, pos_utilities := some (zerosMat 2 1),
      entrances := none, aisles_y := none, coefs := [1, 0, 0, 0],
      degree_sequence := some [1, 1], sociability_sequence := some [0, 1],
      seed := 0, gen_er := fun _ _ _ _ => 0, gen_walts := fun _ _ _ => 0 } 2).getD
    defaultState

/-- The layout used by the C4 run. -/
def cdC4 : ClassroomDesign :=
  (mkClassroomDesign [2, 0] 2 (some (zerosMat 2 1)) none none).getD defaultDesign

/-- The model constructed with an all-zero coefficient list and a constant
sociability sequence. -/
def mC4 : ModelState :=
  (initModel cdC4 [0, 0, 0, 0] (some [1, 1]) (some [1, 1]) 0
    (fun _ _ _ _ => 0) (fun _ _ _ => 0)).getD defaultState

/-- Whether an optional blocked-seat count is within the passage bound. -/
def countBounded (o : Option ℕ) (mp : ℤ) : Bool :=
  match o with
  | none => true
  | some c => (c : ℤ) ≤ mp

/-- The layout used by the C2 run. -/
def cdC2 : ClassroomDesign :=
  (mkClassroomDesign [2, 0] 2 (some (zerosMat 2 1)) none none).getD defaultDesign

/-- The C2 state: coefficients `[0,0,1,0]`, sociability sequence `[2,3]`
(sampled min 2, max 3), one admitted student of sociability 2, all seats
still empty. -/
def mC2 : ModelState :=
  ((initModel cdC2 [0, 0, 1, 0] (some [1, 1]) (some [2, 3]) 0
    (fun _ _ _ _ => 0) (fun _ _ _ => 0)).bind admit_student).getD defaultState

/-- The C2 witness state: equal coefficients `1/4`, zero position
utilities, zero tie matrix, sociability sequence `[0,1]`, one admitted
student. -/
def mC2w : ModelState :=
  ((initModel ((mkClassroomDesign [2, 0] 2 (some (zerosMat 2 1)) none none).getD defaultDesign)
    [1/4, 1/4, 1/4, 1/4] (some [1, 1]) (some [0, 1]) 0
    (fun _ _ _ _ => 0) (fun _ _ _ => 0)).bind admit_student).getD defaultState

/-! ## Generic lemmas about the helpers -/

theorem foldl_max_choice {α : Type} [LinearOrder α] (t : List α) :
    ∀ h : α, t.foldl max h = h ∨ t.foldl max h ∈ t := by
  induction t with
  | nil => intro h; left; rfl
  | cons a t ih =>
    intro h
    simp only [List.foldl_cons]
    rcases ih (max h a) with hc | hc
    · rw [hc]
      rcases max_choice h a with hm | hm
      · left; exact hm
      · right; rw [hm]; simp
    · right; exact List.mem_cons_of_mem a hc

theorem le_foldl_max_init {α : Type} [LinearOrder α] (t : List α) :
    ∀ h : α, h ≤ t.foldl max h := by
  induction t with
  | nil => intro h; exact le_refl h
  | cons a t ih =>
    intro h
    simp only [List.foldl_cons]
    exact le_trans (le_max_left h a) (ih (max h a))

theorem le_foldl_max_of_mem {α : Type} [LinearOrder α] (t : List α) :
    ∀ (h u : α), u ∈ t → u ≤ t.foldl max h := by
  induction t with
  | nil => intro h u hu; cases hu
  | cons a t ih =>
    intro h u hu
    simp only [List.foldl_cons]
    rcases List.mem_cons.mp hu with rfl | hu2
    · exact le_trans (le_max_right h u) (le_foldl_max_init t (max h u))
    · exact ih (max h a) u hu2

theorem maxList_mem (l : List ℚ) (hl : l ≠ []) : maxList l ∈ l := by
  match l with
  | [] => exact absurd rfl hl
  | h :: t =>
    simp only [maxList]
    rcases foldl_max_choice t h with hc | hc
    · rw [hc]; simp
    · exact List.mem_cons_of_mem h hc

theorem le_maxList (l : List ℚ) (u : ℚ) (hu : u ∈ l) : u ≤ maxList l := by
  match l with
  | [] => cases hu
  | h :: t =>
    simp only [maxList]
    rcases List.mem_cons.mp hu with rfl | hu2
    · exact le_foldl_max_init t u
    · exact le_foldl_max_of_mem t h u hu2

theorem mapOpt_some_length {α β : Type} (f : α → Option β) :
    ∀ (l : List α) (ys : List β), mapOpt f l = some ys → ys.length = l.length := by
  intro l
  induction l with
  | nil => intro ys h; simp [mapOpt] at h; simp [← h]
  | cons a t ih =>
    intro ys h
    simp only [mapOpt] at h
    cases hfa : f a with
    | none => rw [hfa] at h; simp at h
    | some b =>
      cases hmt : mapOpt f t with
      | none => rw [hfa, hmt] at h; simp at h
      | some bs =>
        rw [hfa, hmt] at h
        simp only [Option.some_inj] at h
        subst h
        simp [ih bs hmt]

theorem mapOpt_some_zip {α β : Type} (f : α → Option β) :
    ∀ (l : List α) (ys : List β), mapOpt f l = some ys →
      ∀ p ∈ l.zip ys, f p.1 = some p.2 := by
  intro l
  induction l with
  | nil => intro ys _ p hp; simp at hp
  | cons a t ih =>
    intro ys h p hp
    simp only [mapOpt] at h
    cases hfa : f a with
    | none => rw [hfa] at h; simp at h
    | some b =>
      cases hmt : mapOpt f t with
      | none => rw [hfa, hmt] at h; simp at h
      | some bs =>
        rw [hfa, hmt] at h
        simp only [Option.some_inj] at h
        subst h
        rcases List.mem_cons.mp hp with hp1 | hp1
        · rw [hp1]; exact hfa
        · exact ih bs hmt p hp1

theorem mapOpt_some_of_mem {α β : Type} (f : α → Option β) (l : List α) (ys : List β)
    (h : mapOpt f l = some ys) {a : α} (ha : a ∈ l) : ∃ b ∈ ys, f a = some b := by
  induction l generalizing ys with
  | nil => cases ha
  | cons x t ih =>
    simp only [mapOpt] at h
    cases hfa : f x with
    | none => rw [hfa] at h; simp at h
    | some b =>
      cases hmt : mapOpt f t with
      | none => rw [hfa, hmt] at h; simp at h
      | some bs =>
        rw [hfa, hmt] at h
        simp only [Option.some_inj] at h
        subst h
        rcases List.mem_cons.mp ha with rfl | ha2
        · exact ⟨b, by simp, hfa⟩
        · rcases ih bs hmt ha2 with ⟨b2, hmem, hfa2⟩
          exact ⟨b2, by simp [hmem], hfa2⟩

theorem mapOpt_some_mem_snd {α β : Type} (f : α → Option β) :
    ∀ (l : List α) (ys : List β), mapOpt f l = some ys →
      ∀ b ∈ ys, ∃ a ∈ l, f a = some b := by
  intro l
  induction l with
  | nil => intro ys h b hb; simp [mapOpt] at h; subst h; cases hb
  | cons x t ih =>
    intro ys h b hb
    simp only [mapOpt] at h
    cases hfa : f x with
    | none => rw [hfa] at h; simp at h
    | some c =>
      cases hmt : mapOpt f t with
      | none => rw [hfa, hmt] at h; simp at h
      | some bs =>
        rw [hfa, hmt] at h
        simp only [Option.some_inj] at h
        subst h
        rcases List.mem_cons.mp hb with rfl | hb2
        · exact ⟨x, by simp, hfa⟩
        · rcases ih bs hmt b hb2 with ⟨a, hmem, hfa2⟩
          exact ⟨a, by simp [hmem], hfa2⟩


/-! ## Lemmas about the float-value arithmetic -/

theorem pyEq_eq (a b : PyFloat) (h : pyEq a b = true) : a = b := by
  cases a <;> cases b <;> simp only [pyEq, decide_eq_true_eq,
    Bool.false_eq_true] at h <;> first | rfl | rw [h] | exact absurd h (by simp)

theorem pyEq_refl (a : PyFloat) (h : a ≠ PyFloat.nan) : pyEq a a = true := by
  cases a <;> simp only [pyEq, decide_eq_true_eq] <;>
    first | rfl | exact absurd rfl h

theorem pyEq_nan_right (a : PyFloat) : pyEq a PyFloat.nan = false := by
  cases a <;> rfl

theorem pyMax_choice (a b : PyFloat) : pyMax a b = a ∨ pyMax a b = b := by
  cases a <;> cases b <;> simp only [pyMax, PyFloat.num.injEq] <;>
    first | exact max_choice _ _ | simp

theorem pyMax_ne_nan (a b : PyFloat) (ha : a ≠ PyFloat.nan)
    (hb : b ≠ PyFloat.nan) : pyMax a b ≠ PyFloat.nan := by
  cases a <;> cases b <;> simp only [pyMax] <;>
    first | exact ha | exact hb | simp

theorem pyMax_nan_left (b : PyFloat) : pyMax PyFloat.nan b = PyFloat.nan := by
  cases b <;> rfl

theorem pyMax_nan_right (a : PyFloat) : pyMax a PyFloat.nan = PyFloat.nan := by
  cases a <;> rfl

theorem pyLe_trans (a b c : PyFloat) (hab : pyLe a b = true)
    (hbc : pyLe b c = true) : pyLe a c = true := by
  cases a <;> cases b <;> cases c <;>
    simp only [pyLe, decide_eq_true_eq, Bool.false_eq_true] at hab hbc ⊢ <;>
    first | trivial | exact le_trans hab hbc

theorem pyLe_pyMax_left (a b : PyFloat) (ha : a ≠ PyFloat.nan)
    (hb : b ≠ PyFloat.nan) : pyLe a (pyMax a b) = true := by
  cases a <;> cases b <;>
    simp only [pyMax, pyLe, decide_eq_true_eq] <;>
    first | trivial | exact le_max_left _ _ | exact le_refl _ |
      exact ha rfl | exact hb rfl

theorem pyLe_pyMax_right (a b : PyFloat) (ha : a ≠ PyFloat.nan)
    (hb : b ≠ PyFloat.nan) : pyLe b (pyMax a b) = true := by
  cases a <;> cases b <;>
    simp only [pyMax, pyLe, decide_eq_true_eq] <;>
    first | trivial | exact le_max_right _ _ | exact le_refl _ |
      exact ha rfl | exact hb rfl

theorem foldl_pyMax_choice (t : List PyFloat) :
    ∀ h : PyFloat, t.foldl pyMax h = h ∨ t.foldl pyMax h ∈ t := by
  induction t with
  | nil => intro h; left; rfl
  | cons a t ih =>
    intro h
    simp only [List.foldl_cons]
    rcases ih (pyMax h a) with hc | hc
    · rw [hc]
      rcases pyMax_choice h a with hm | hm
      · left; exact hm
      · right; rw [hm]; simp
    · right; exact List.mem_cons_of_mem a hc

theorem foldl_pyMax_ne_nan (t : List PyFloat) :
    ∀ h : PyFloat, (∀ u ∈ t, u ≠ PyFloat.nan) → h ≠ PyFloat.nan →
      t.foldl pyMax h ≠ PyFloat.nan := by
  induction t with
  | nil => intro h _ hh; exact hh
  | cons a t ih =>
    intro h hall hh
    simp only [List.foldl_cons]
    exact ih (pyMax h a) (fun u hu => hall u (List.mem_cons_of_mem a hu))
      (pyMax_ne_nan h a hh (hall a (by simp)))

theorem le_foldl_pyMax_init (t : List PyFloat) :
    ∀ h : PyFloat, (∀ u ∈ t, u ≠ PyFloat.nan) → h ≠ PyFloat.nan →
      pyLe h (t.foldl pyMax h) = true := by
  induction t with
  | nil =>
    intro h _ hh
    cases h <;> simp [pyLe] <;> exact hh rfl
  | cons a t ih =>
    intro h hall hh
    have ha : a ≠ PyFloat.nan := hall a (by simp)
    simp only [List.foldl_cons]
    exact pyLe_trans h (pyMax h a) _ (pyLe_pyMax_left h a hh ha)
      (ih (pyMax h a) (fun u hu => hall u (List.mem_cons_of_mem a hu))
        (pyMax_ne_nan h a hh ha))

theorem le_foldl_pyMax_of_mem (t : List PyFloat) :
    ∀ (h u : PyFloat), (∀ v ∈ t, v ≠ PyFloat.nan) → h ≠ PyFloat.nan →
      u ∈ t → pyLe u (t.foldl pyMax h) = true := by
  induction t with
  | nil => intro h u _ _ hu; cases hu
  | cons a t ih =>
    intro h u hall hh hu
    have ha : a ≠ PyFloat.nan := hall a (by simp)
    simp only [List.foldl_cons]
    rcases List.mem_cons.mp hu with rfl | hu2
    · exact pyLe_trans u (pyMax h u) _ (pyLe_pyMax_right h u hh (hall u (by simp)))
        (le_foldl_pyMax_init t (pyMax h u)
          (fun v hv => hall v (List.mem_cons_of_mem u hv))
          (pyMax_ne_nan h u hh (hall u (by simp))))
    · exact ih (pyMax h a) u (fun v hv => hall v (List.mem_cons_of_mem a hv))
        (pyMax_ne_nan h a hh ha) hu2

theorem maxPy_mem (l : List PyFloat) (hl : l ≠ []) : maxPy l ∈ l := by
  match l with
  | [] => exact absurd rfl hl
  | h :: t =>
    simp only [maxPy]
    rcases foldl_pyMax_choice t h with hc | hc
    · rw [hc]; simp
    · exact List.mem_cons_of_mem h hc

theorem maxPy_ne_nan (l : List PyFloat) (hl : l ≠ [])
    (hall : ∀ u ∈ l, u ≠ PyFloat.nan) : maxPy l ≠ PyFloat.nan := by
  match l with
  | [] => exact absurd rfl hl
  | h :: t =>
    simp only [maxPy]
    exact foldl_pyMax_ne_nan t h
      (fun u hu => hall u (List.mem_cons_of_mem h hu)) (hall h (by simp))

theorem le_maxPy (l : List PyFloat) (u : PyFloat)
    (hall : ∀ v ∈ l, v ≠ PyFloat.nan) (hu : u ∈ l) : pyLe u (maxPy l) = true := by
  match l with
  | [] => cases hu
  | h :: t =>
    simp only [maxPy]
    rcases List.mem_cons.mp hu with rfl | hu2
    · exact le_foldl_pyMax_init t u
        (fun v hv => hall v (List.mem_cons_of_mem u hv)) (hall u (by simp))
    · exact le_foldl_pyMax_of_mem t h u
        (fun v hv => hall v (List.mem_cons_of_mem h hv)) (hall h (by simp)) hu2

theorem foldl_pyMax_nan_init (t : List PyFloat) :
    t.foldl pyMax PyFloat.nan = PyFloat.nan := by
  induction t with
  | nil => rfl
  | cons a t ih => simp only [List.foldl_cons, pyMax_nan_left]; exact ih

theorem foldl_pyMax_nan_mem (t : List PyFloat) :
    ∀ h : PyFloat, PyFloat.nan ∈ t → t.foldl pyMax h = PyFloat.nan := by
  induction t with
  | nil => intro h hm; cases hm
  | cons a t ih =>
    intro h hm
    simp only [List.foldl_cons]
    rcases List.mem_cons.mp hm with ha | hm2
    · rw [← ha, pyMax_nan_right, foldl_pyMax_nan_init]
    · exact ih (pyMax h a) hm2

theorem maxPy_nan_mem (l : List PyFloat) (h : PyFloat.nan ∈ l) :
    maxPy l = PyFloat.nan := by
  match l with
  | [] => cases h
  | a :: t =>
    simp only [maxPy]
    rcases List.mem_cons.mp h with ha | ht
    · rw [← ha, foldl_pyMax_nan_init]
    · exact foldl_pyMax_nan_mem t a ht

theorem pyAddNum_num_inv (q : ℚ) (v : PyFloat) (u : ℚ)
    (h : pyAddNum q v = PyFloat.num u) : ∃ a, v = PyFloat.num a ∧ u = q + a := by
  cases v <;> simp only [pyAddNum] at h
  · exact ⟨_, rfl, (PyFloat.num.injEq _ _ ▸ h).symm⟩
  all_goals cases h

theorem pyScale_num_inv (c : ℚ) (v : PyFloat) (w : ℚ)
    (h : pyScale c v = PyFloat.num w) : ∃ a, v = PyFloat.num a ∧ w = c * a := by
  cases v <;> simp only [pyScale] at h
  · exact ⟨_, rfl, (PyFloat.num.injEq _ _ ▸ h).symm⟩
  · split at h <;> try split at h
    all_goals cases h
  · split at h <;> try split at h
    all_goals cases h
  · cases h

/-! ## Claim C10: construction requires an explicit sociability sequence -/

/-- **C10.** For every classroom design and seed, constructing the model
without an explicitly supplied sociability sequence fails (the default
branch references `SOCIABILITY_MIN`/`SOCIABILITY_MAX`, names defined
nowhere in the module, so it raises `NameError`); and whenever construction
completes, an explicit sequence was supplied and its length equals the
population size (`max_num_agents`). -/
theorem init_requires_sociability_sequence
    (cd : ClassroomDesign) (coefs : List ℚ) (ds : Option (List ℕ)) (seed : ℕ)
    (g1 : ℕ → ℚ → ℕ → ℕ → ℚ) (g2 : List ℕ → ℕ → ℕ → ℚ) :
    initModel cd coefs ds none seed g1 g2 = none ∧
    (∀ (sq : Option (List ℚ)) (m : ModelState),
      initModel cd coefs ds sq seed g1 g2 = some m →
      ∃ seq, sq = some seq ∧ seq.length = m.max_num_agents) := by
  constructor
  · rfl
  · intro sq m h
    cases sq with
    | none => exact absurd h (by simp [initModel])
    | some seq =>
      refine ⟨seq, rfl, ?_⟩
      simp only [initModel] at h
      split at h
      · split at h
        · simp only [Option.some_inj] at h
          subst h
          assumption
        · exact absurd h (by simp)
      · exact absurd h (by simp)

/-- Witness for C10 at a concrete design: a run with a matching explicit
sequence completes and has the claimed length equation. -/
theorem init_requires_sociability_sequence_witness :
    (initModel ((mkClassroomDesign [2, 0] 2 (some (zerosMat 2 1)) none none).getD defaultDesign)
      [0, 0, 1, 0] (some [1, 1]) (some [2, 3]) 0 (fun _ _ _ _ => 0) (fun _ _ _ => 0)).isSome = true ∧
    (∃ seq, (some [(2 : ℚ), 3] : Option (List ℚ)) = some seq ∧
      seq.length = (((initModel ((mkClassroomDesign [2, 0] 2 (some (zerosMat 2 1)) none none).getD defaultDesign)
        [0, 0, 1, 0] (some [1, 1]) (some [2, 3]) 0 (fun _ _ _ _ => 0) (fun _ _ _ => 0)).getD defaultState)).max_num_agents) := by
  constructor
  · decide
  · exact (init_requires_sociability_sequence
      ((mkClassroomDesign [2, 0] 2 (some (zerosMat 2 1)) none none).getD defaultDesign)
      [0, 0, 1, 0] (some [1, 1]) 0 (fun _ _ _ _ => 0) (fun _ _ _ => 0)).2
      (some [2, 3]) _ rfl

/-! ## Claim C7: a full classroom leaves the occupant unseated, no error -/

/-- **C7.** When the decision procedure runs with no unoccupied seat
anywhere, no assignment is made and nothing is escalated: `choose_seat`
returns the state unchanged (so the occupant's `seated` flag stays false
and no seat's occupant field changes), and the per-tick `step` of an
unseated student likewise leaves the state unchanged, so the student
re-runs the decision procedure on every subsequent tick. -/
theorem no_empty_seats_no_assignment (s : ModelState) (st : Student)
    (hempty : seat_options s = [])
    (hunseated : st.seated = false) (hflag : st.will_to_change_seat = false) :
    choose_seat s st none = some s ∧ student_step s st = some s := by
  have hchoose : choose_seat s st none = some s := by
    simp only [choose_seat, hempty, List.isEmpty_nil, if_true]
  refine ⟨hchoose, ?_⟩
  simp only [student_step, hunseated, if_true, hchoose, hflag]
  simp

/-- Witness for C7: a one-seat classroom after two ticks has a fully
occupied grid and an unseated second student, and its step is a no-op. -/
theorem no_empty_seats_no_assignment_witness :
    (seat_options ((runModel
      { blocks := [1, 0], num_rows := 2, pos_utilities := some (zerosMat 1 1),
        entrances := none, aisles_y := none, coefs := [1, 0, 0, 0],
        degree_sequence := some [1, 1], sociability_sequence := some [0, 1],
        seed := 0, gen_er := fun _ _ _ _ => 0, gen_walts := fun _ _ _ => 0 } 2).getD defaultState) = [] ∧
     ((((runModel
      { blocks := [1, 0], num_rows := 2, pos_utilities := some (zerosMat 1 1),
        entrances := none, aisles_y := none, coefs := [1, 0, 0, 0],
        degree_sequence := some [1, 1], sociability_sequence := some [0, 1],
        seed := 0, gen_er := fun _ _ _ _ => 0, gen_walts := fun _ _ _ => 0 } 2).getD defaultState).students.get? 1).getD defaultStudent).seated = false) ∧
    choose_seat ((runModel
      { blocks := [1, 0], num_rows := 2, pos_utilities := some (zerosMat 1 1),
        entrances := none, aisles_y := none, coefs := [1, 0, 0, 0],
        degree_sequence := some [1, 1], sociability_sequence := some [0, 1],
        seed := 0, gen_er := fun _ _ _ _ => 0, gen_walts := fun _ _ _ => 0 } 2).getD defaultState)
      ((((runModel
      { blocks := [1, 0], num_rows := 2, pos_utilities := some (zerosMat 1 1),
        entrances := none, aisles_y := none, coefs := [1, 0, 0, 0],
        degree_sequence := some [1, 1], sociability_sequence := some [0, 1],
        seed := 0, gen_er := fun _ _ _ _ => 0, gen_walts := fun _ _ _ => 0 } 2).getD defaultState).students.get? 1).getD defaultStudent) none = some ((runModel
      { blocks := [1, 0], num_rows := 2, pos_utilities := some (zerosMat 1 1),
        entrances := none, aisles_y := none, coefs := [1, 0, 0, 0],
        degree_sequence := some [1, 1], sociability_sequence := some [0, 1],
        seed := 0, gen_er := fun _ _ _ _ => 0, gen_walts := fun _ _ _ => 0 } 2).getD defaultState) := by
  exact ⟨⟨by decide, by decide⟩, (no_empty_seats_no_assignment _ _ (by decide) (by decide) (by decide)).1⟩

/-! ## Claim C8: determinism of runs from equal inputs -/

/-- **C8.** Two simulations constructed with the same seed, the same
layout arguments, the same coefficients, the same tie matrix (i.e. the same
external network generators and degree sequence) and the same sociability
sequence, advanced by the same number of ticks, export identical occupancy
snapshots.  In this pure embedding the whole run is a function of the
construction surface, so field-wise equality of the two configurations
forces equality of the exported snapshots. -/
theorem run_deterministic (c1 c2 : Config) (n : ℕ)
    (h1 : c1.blocks = c2.blocks) (h2 : c1.num_rows = c2.num_rows)
    (h3 : c1.pos_utilities = c2.pos_utilities) (h4 : c1.entrances = c2.entrances)
    (h5 : c1.aisles_y = c2.aisles_y) (h6 : c1.coefs = c2.coefs)
    (h7 : c1.degree_sequence = c2.degree_sequence)
    (h8 : c1.sociability_sequence = c2.sociability_sequence)
    (h9 : c1.seed = c2.seed) (h10 : c1.gen_er = c2.gen_er)
    (h11 : c1.gen_walts = c2.gen_walts) :
    (runModel c1 n).map get_binary_model_state =
      (runModel c2 n).map get_binary_model_state := by
  have hc : c1 = c2 := by
    cases c1; cases c2
    simp only at h1 h2 h3 h4 h5 h6 h7 h8 h9 h10 h11
    subst h1; subst h2; subst h3; subst h4; subst h5; subst h6
    subst h7; subst h8; subst h9; subst h10; subst h11
    rfl
  rw [hc]

/-- Witness for C8 at a concrete configuration (twice the same record). -/
theorem run_deterministic_witness :
    (runModel
      { blocks := [2, 0], num_rows := 2, pos_utilities := some (zerosMat 2 1),
        entrances := none, aisles_y := none, coefs := [0, 0, 1, 0],
        degree_sequence := some [1, 1], sociability_sequence := some [2, 3],
        seed := 0, gen_er := fun _ _ _ _ => 0, gen_walts := fun _ _ _ => 0 } 2).map
        get_binary_model_state =
    (runModel
      { blocks := [2, 0], num_rows := 2, pos_utilities := some (zerosMat 2 1),
        entrances := none, aisles_y := none, coefs := [0, 0, 1, 0],
        degree_sequence := some [1, 1], sociability_sequence := some [2, 3],
        seed := 0, gen_er := fun _ _ _ _ => 0, gen_walts := fun _ _ _ => 0 } 2).map
        get_binary_model_state :=
  run_deterministic _ _ 2 rfl rfl rfl rfl rfl rfl rfl rfl rfl rfl rfl

/-! ## Claim C5: the zero-denominator cases are not guarded -/

/-- **C5 counterexample.**  The claim asserts that `maxPassage = 0` makes
accessibility fall back to the fixed value 1, and that an equal sociability
min and max make the rescaled sociability fall back to the fixed value 0.
Neither guard exists in the source: both computations divide by zero
(`ZeroDivisionError`, modelled as `none`).  Concretely, on the layout
`blocks = [1,1]` (whose `max_pass` is 0) accessibility of the first seat
fails rather than returning 1, and with the constant sociability sequence
`[1,1]` the social utility fails rather than returning a 0 component. -/
theorem no_zero_denominator_guard_cex :
    (((buildModel
      { blocks := [1, 1], num_rows := 2, pos_utilities := some (zerosMat 2 1),
        entrances := none, aisles_y := none, coefs := [1, 0, 0, 0],
        degree_sequence := some [1, 1], sociability_sequence := some [0, 1],
        seed := 0, gen_er := fun _ _ _ _ => 0, gen_walts := fun _ _ _ => 0 }).getD
        defaultState).classroom.max_pass = 0 ∧
     (get_accessibility ((buildModel
      { blocks := [1, 1], num_rows := 2, pos_utilities := some (zerosMat 2 1),
        entrances := none, aisles_y := none, coefs := [1, 0, 0, 0],
        degree_sequence := some [1, 1], sociability_sequence := some [0, 1],
        seed := 0, gen_er := fun _ _ _ _ => 0, gen_walts := fun _ _ _ => 0 }).getD defaultState)
      (((buildModel
      { blocks := [1, 1], num_rows := 2, pos_utilities := some (zerosMat 2 1),
        entrances := none, aisles_y := none, coefs := [1, 0, 0, 0],
        degree_sequence := some [1, 1], sociability_sequence := some [0, 1],
        seed := 0, gen_er := fun _ _ _ _ => 0, gen_walts := fun _ _ _ => 0 }).getD
        defaultState).seats.headD dummySeat) = none)) ∧
    (((buildModel
      { blocks := [2, 0], num_rows := 2, pos_utilities := some (zerosMat 2 1),
        entrances := none, aisles_y := none, coefs := [0, 0, 1, 0],
        degree_sequence := some [1, 1], sociability_sequence := some [1, 1],
        seed := 0, gen_er := fun _ _ _ _ => 0, gen_walts := fun _ _ _ => 0 }).getD
        defaultState).sociability_range.1 =
     ((buildModel
      { blocks := [2, 0], num_rows := 2, pos_utilities := some (zerosMat 2 1),
        entrances := none, aisles_y := none, coefs := [0, 0, 1, 0],
        degree_sequence := some [1, 1], sociability_sequence := some [1, 1],
        seed := 0, gen_er := fun _ _ _ _ => 0, gen_walts := fun _ _ _ => 0 }).getD
        defaultState).sociability_range.2 ∧
     (get_social_utility ((buildModel
      { blocks := [2, 0], num_rows := 2, pos_utilities := some (zerosMat 2 1),
        entrances := none, aisles_y := none, coefs := [0, 0, 1, 0],
        degree_sequence := some [1, 1], sociability_sequence := some [1, 1],
        seed := 0, gen_er := fun _ _ _ _ => 0, gen_walts := fun _ _ _ => 0 }).getD defaultState)
      defaultStudent
      (((buildModel
      { blocks := [2, 0], num_rows := 2, pos_utilities := some (zerosMat 2 1),
        entrances := none, aisles_y := none, coefs := [0, 0, 1, 0],
        degree_sequence := some [1, 1], sociability_sequence := some [1, 1],
        seed := 0, gen_er := fun _ _ _ _ => 0, gen_walts := fun _ _ _ => 0 }).getD
        defaultState).seats.headD dummySeat) = none)) := by
  exact ⟨⟨by decide, by decide⟩, ⟨by decide, by decide⟩⟩

/-- **C5 (amended).**  Neither normalization guards its zero-denominator
case: whenever the layout's `max_pass` is 0 the accessibility computation
fails with a division by zero (it does not return the fallback value 1),
and whenever the run's sociability minimum equals its maximum the social
utility computation fails with a division by zero (it does not return a 0
sociability component). -/
theorem zero_denominator_failure (s : ModelState) (st : Student) (seat : Seat) :
    (s.classroom.max_pass = 0 → get_accessibility s seat = none) ∧
    (s.sociability_range.1 = s.sociability_range.2 →
      get_social_utility s st seat = none) := by
  constructor
  · intro h
    simp only [get_accessibility, h, if_true]
  · intro h
    simp only [get_social_utility, ← h, sub_self, if_true]

/-- Witness for C5 (amended) at the concrete degenerate inputs. -/
theorem zero_denominator_failure_witness :
    (((buildModel
      { blocks := [1, 1], num_rows := 2, pos_utilities := some (zerosMat 2 1),
        entrances := none, aisles_y := none, coefs := [1, 0, 0, 0],
        degree_sequence := some [1, 1], sociability_sequence := some [0, 1],
        seed := 0, gen_er := fun _ _ _ _ => 0, gen_walts := fun _ _ _ => 0 }).getD
        defaultState).classroom.max_pass = 0 ∧
     get_accessibility ((buildModel
      { blocks := [1, 1], num_rows := 2, pos_utilities := some (zerosMat 2 1),
        entrances := none, aisles_y := none, coefs := [1, 0, 0, 0],
        degree_sequence := some [1, 1], sociability_sequence := some [0, 1],
        seed := 0, gen_er := fun _ _ _ _ => 0, gen_walts := fun _ _ _ => 0 }).getD defaultState)
      dummySeat = none) := by
  refine ⟨by decide, ?_⟩
  exact (zero_denominator_failure _ defaultStudent dummySeat).1 (by decide)

/-! ## Claim C6: layout construction and the utility-matrix shape -/

theorem listMaxZ_isSome (l : List ℤ) (hl : l ≠ []) : ∃ v, listMaxZ l = some v := by
  cases l with
  | nil => exact absurd rfl hl
  | cons h t => exact ⟨t.foldl max h, rfl⟩

/-- **C6 counterexample.**  The claim asserts that construction fails with a
fatal `ConfigurationError` exactly when a supplied position-utility matrix
matches neither the reduced nor the full grid shape, and succeeds (with
all-zero utilities) when no matrix is supplied.  The source does the
opposite: no `ConfigurationError` exists anywhere in the module; a
wrong-shaped matrix (here 1×1 on a 3×2 grid with reduced shape 2×1) is
silently replaced by all-zero utilities and construction succeeds, while
supplying no matrix at all crashes (`pos_utilities.shape` is evaluated
before any `None` check, an `AttributeError`). -/
theorem layout_wrong_shape_no_error_cex :
    (mkClassroomDesign [2, 0] 2 (some [[5]]) none none).isSome = true ∧
    (mkClassroomDesign [2, 0] 2 (some [[5]]) none none).map
      (fun d => d.pos_utilities) = some (zerosMat 3 2) ∧
    mkClassroomDesign [2, 0] 2 none none none = none := by
  exact ⟨by decide, by decide, rfl⟩

/-- **C6 (amended).**  Layout construction never raises a configuration
error for a supplied matrix: when the matrix matches neither the reduced
(aisle-stripped) shape nor the full grid shape, construction succeeds and
every position utility defaults to 0; construction fails exactly when no
matrix is supplied at all (attribute access on `None`). -/
theorem layout_shape_handling (blocks : List ℕ) (num_rows : ℕ)
    (m : List (List ℚ)) (ents : Option (List (ℕ × ℕ))) (ay : Option (List ℕ))
    (hblocks : blocks ≠ [])
    (hsh1 : shapeOf m ≠ some (blocks.sum + blocks.length - 1 - (mkAislesX blocks).length,
      num_rows - (ay.getD [0]).length))
    (hsh2 : shapeOf m ≠ some (blocks.sum + blocks.length - 1, num_rows)) :
    (∃ d, mkClassroomDesign blocks num_rows (some m) ents ay = some d ∧
      d.pos_utilities = zerosMat (blocks.sum + blocks.length - 1) num_rows) ∧
    mkClassroomDesign blocks num_rows none ents ay = none := by
  constructor
  · have hmp : maxPassList blocks ≠ [] := by
      intro hc
      have hlen : (maxPassList blocks).length = blocks.length := by
        simp [maxPassList]
      rw [hc] at hlen
      exact hblocks (List.length_eq_zero.mp hlen.symm)
    rcases listMaxZ_isSome _ hmp with ⟨v, hv⟩
    refine ⟨{ width := blocks.sum + blocks.length - 1, num_rows := num_rows,
              aisles_x := mkAislesX blocks, aisles_y := ay.getD [0],
              entrances := ents.getD [(0, 0), (blocks.sum + blocks.length - 1 - 1, 0)],
              pos_utilities := zerosMat (blocks.sum + blocks.length - 1) num_rows,
              max_pass := v,
              seat_count := (blocks.sum + blocks.length - 1 - (mkAislesX blocks).length) *
                (num_rows - (ay.getD [0]).length) }, ?_, rfl⟩
    simp only [mkClassroomDesign]
    rw [if_neg hsh1, if_neg (fun hc => hsh2 hc.1), hv]
  · rfl

/-- Witness for C6 (amended) at the concrete wrong-shaped matrix. -/
theorem layout_shape_handling_witness :
    (([2, 0] : List ℕ) ≠ [] ∧
     shapeOf [[5]] ≠ some ([2, 0].sum + [2, 0].length - 1 - (mkAislesX [2, 0]).length,
       2 - ((none : Option (List ℕ)).getD [0]).length) ∧
     shapeOf [[5]] ≠ some ([2, 0].sum + [2, 0].length - 1, 2)) ∧
    ((∃ d, mkClassroomDesign [2, 0] 2 (some [[5]]) none none = some d ∧
      d.pos_utilities = zerosMat ([2, 0].sum + [2, 0].length - 1) 2) ∧
     mkClassroomDesign [2, 0] 2 none none none = none) := by
  refine ⟨⟨by decide, by decide, by decide⟩, ?_⟩
  exact layout_shape_handling [2, 0] 2 [[5]] none none (by decide) (by decide) (by decide)

/-! ## Shared inversion lemmas for the utility computation -/

theorem total_utility_inv (s : ModelState) (st : Student) (seat : Seat) (u : PyFloat)
    (h : get_total_utility s st seat = some u) :
    ∃ fs a p f c ad, get_social_utility s st seat = some fs ∧
      s.coefs = [p, f, c, ad] ∧ get_accessibility s seat = some a ∧
      u = pyAddNum (p * get_position_utility s seat + f * fs.1 + c * fs.2)
            (pyScale ad a) := by
  unfold get_total_utility at h
  cases hs : get_social_utility s st seat with
  | none => rw [hs] at h; simp at h
  | some fs =>
    rw [hs] at h
    match hc : s.coefs with
    | [] => rw [hc] at h; simp at h
    | [_] => rw [hc] at h; simp at h
    | [_, _] => rw [hc] at h; simp at h
    | [_, _, _] => rw [hc] at h; simp at h
    | p :: f :: c :: ad :: e :: t => rw [hc] at h; simp at h
    | [p, f, c, ad] =>
      rw [hc] at h
      cases ha : get_accessibility s seat with
      | none => rw [ha] at h; simp at h
      | some a =>
        rw [ha] at h
        simp only [Option.some_inj] at h
        exact ⟨fs, a, p, f, c, ad, rfl, rfl, rfl, h.symm⟩

theorem total_utility_num_inv (s : ModelState) (st : Student) (seat : Seat) (u : ℚ)
    (h : get_total_utility s st seat = some (PyFloat.num u)) :
    ∃ fs a p f c ad, get_social_utility s st seat = some fs ∧
      s.coefs = [p, f, c, ad] ∧ get_accessibility s seat = some (PyFloat.num a) ∧
      u = p * get_position_utility s seat + f * fs.1 + c * fs.2 + ad * a := by
  rcases total_utility_inv s st seat _ h with ⟨fs, a, p, f, c, ad, hs, hc, ha, hval⟩
  rcases pyAddNum_num_inv _ _ _ hval.symm with ⟨w, hw, hu⟩
  rcases pyScale_num_inv _ _ _ hw with ⟨q, hq, hwq⟩
  subst hq
  exact ⟨fs, q, p, f, c, ad, hs, hc, ha, by rw [hu, hwq]⟩

theorem const_zero_map_mem {l l2 : List ℚ}
    (h : l.map (fun _ => (0 : ℚ)) = l2) {x : ℚ} (hx : x ∈ l2) : x = 0 := by
  subst h
  rcases List.mem_map.mp hx with ⟨a, _, ha⟩
  exact ha.symm

/-! ## Claim C4: a zero coefficient sum does not enable uniform-random mode -/


/-- **C4 counterexample.**  The claim asserts that a zero coefficient sum
switches the model globally to uniform-random seat choice, never invoking
the utility computation.  In the source, `np.all(coefs == 0)` compares a
Python list with the integer 0, which is `False` for every list, so the
flag is never set; the utility path runs (with all normalized coefficients
0), and on this configuration (constant sociability sequence, so the
sociability rescale divides by zero) the first seating decision crashes
instead of choosing uniformly at random. -/
theorem zero_coefs_not_random_mode_cex :
    mC4.random_seat_choice = false ∧
    mC4.coefs = [0, 0, 0, 0] ∧
    runModel
      { blocks := [2, 0], num_rows := 2, pos_utilities := some (zerosMat 2 1),
        entrances := none, aisles_y := none, coefs := [0, 0, 0, 0],
        degree_sequence := some [1, 1], sociability_sequence := some [1, 1],
        seed := 0, gen_er := fun _ _ _ _ => 0, gen_walts := fun _ _ _ => 0 } 1 = none := by
  refine ⟨by decide, by decide, ?_⟩
  rfl

/-- **C4 (amended).**  For every coefficient list with raw sum 0, the
constructed model does **not** enable the uniform-random flag (`np.all` on
a list-vs-scalar comparison is constant false); its normalized coefficients
are all 0, and the utility computation is still invoked for every seating
decision (and may fail outright, e.g. on a constant sociability sequence).
Whenever the candidate utilities all evaluate, each is either the number 0
(finite accessibility: the seat has an aisle on some side) or `nan`
(`0 * (-inf)` in a layout with no aisle at all); when they are all 0 the
maximal-seat set among which the choice is made is the whole set of
unoccupied seats, while a `nan` anywhere empties the maximal-seat set (so
the subsequent `rand.choice` raises instead of choosing). -/
theorem zero_sum_coefs_utility_mode (cd : ClassroomDesign) (coefs : List ℚ)
    (ds : Option (List ℕ)) (sq : Option (List ℚ)) (seed : ℕ)
    (g1 : ℕ → ℚ → ℕ → ℕ → ℚ) (g2 : List ℕ → ℕ → ℕ → ℚ) (m : ModelState)
    (hsum : coefs.sum = 0)
    (hinit : initModel cd coefs ds sq seed g1 g2 = some m) :
    m.random_seat_choice = false ∧
    m.coefs = coefs.map (fun _ => 0) ∧
    (∀ st utils, mapOpt (get_total_utility m st) (seat_options m) = some utils →
      (∀ u ∈ utils, u = PyFloat.num 0 ∨ u = PyFloat.nan) ∧
      ((∀ u ∈ utils, u = PyFloat.num 0) →
        maximizers (seat_options m) utils = seat_options m) ∧
      (PyFloat.nan ∈ utils → maximizers (seat_options m) utils = [])) := by
  have hm : m.random_seat_choice = false ∧ m.coefs = coefs.map (fun _ => 0) := by
    cases sq with
    | none => exact absurd hinit (by simp [initModel])
    | some seq =>
      simp only [initModel] at hinit
      split at hinit
      · split at hinit
        · simp only [Option.some_inj] at hinit
          subst hinit
          refine ⟨rfl, ?_⟩
          simp only
          have : ¬ (0 < coefs.sum) := by rw [hsum]; exact lt_irrefl 0
          exact List.map_congr_left (fun c _ => by rw [if_neg this])
        · exact absurd hinit (by simp)
      · exact absurd hinit (by simp)
  refine ⟨hm.1, hm.2, ?_⟩
  intro st utils hutils
  have hz : ∀ u ∈ utils, u = PyFloat.num 0 ∨ u = PyFloat.nan := by
    intro u hu
    rcases mapOpt_some_mem_snd _ _ _ hutils u hu with ⟨seat, _, hseat⟩
    rcases total_utility_inv m st seat u hseat with ⟨fs, a, p, f, c, ad, _, hcoefs, _, hval⟩
    have hp : p = 0 := const_zero_map_mem hm.2.symm (by rw [hcoefs]; simp)
    have hf : f = 0 := const_zero_map_mem hm.2.symm (by rw [hcoefs]; simp)
    have hc2 : c = 0 := const_zero_map_mem hm.2.symm (by rw [hcoefs]; simp)
    have had : ad = 0 := const_zero_map_mem hm.2.symm (by rw [hcoefs]; simp)
    rw [hval, hp, hf, hc2, had]
    have hfin : (0 : ℚ) * get_position_utility m seat + 0 * fs.1 + 0 * fs.2 = 0 := by
      ring
    rw [hfin]
    cases a <;> simp [pyScale, pyAddNum]
  refine ⟨hz, ?_, ?_⟩
  · intro hall
    have hlen : utils.length = (seat_options m).length := mapOpt_some_length _ _ _ hutils
    cases hopts : seat_options m with
    | nil =>
      rw [hopts] at hlen
      have : utils = [] := List.length_eq_zero.mp (by simpa using hlen)
      subst this
      simp [maximizers]
    | cons o t =>
      have hne : utils ≠ [] := by
        intro hc
        rw [hc, hopts] at hlen
        simp at hlen
      have hmax0 : maxPy utils = PyFloat.num 0 := hall _ (maxPy_mem utils hne)
      rw [← hopts]
      unfold maximizers
      have hfilter : ((seat_options m).zip utils).filter
          (fun p => pyEq p.2 (maxPy utils)) = (seat_options m).zip utils := by
        apply List.filter_eq_self.mpr
        intro p hp
        have hpm : p.2 ∈ utils := (List.of_mem_zip hp).2
        simp only [hmax0, hall _ hpm]
        rfl
      rw [hfilter]
      exact List.map_fst_zip _ _ (le_of_eq hlen.symm)
  · intro hnan
    have hmaxn : maxPy utils = PyFloat.nan := maxPy_nan_mem utils hnan
    unfold maximizers
    have hfilter : ((seat_options m).zip utils).filter
        (fun p => pyEq p.2 (maxPy utils)) = [] := by
      apply List.filter_eq_nil_iff.mpr
      intro p _
      simp only [hmaxn, pyEq_nan_right]
      simp
    rw [hfilter]
    rfl

/-- Witness for C4 (amended) at the concrete all-zero configuration. -/
theorem zero_sum_coefs_utility_mode_witness :
    (([0, 0, 0, 0] : List ℚ).sum = 0 ∧
     initModel cdC4 [0, 0, 0, 0] (some [1, 1]) (some [1, 1]) 0
       (fun _ _ _ _ => 0) (fun _ _ _ => 0) = some mC4) ∧
    (mC4.random_seat_choice = false ∧
     mC4.coefs = ([0, 0, 0, 0] : List ℚ).map (fun _ => 0) ∧
     (∀ st utils, mapOpt (get_total_utility mC4 st) (seat_options mC4) = some utils →
       (∀ u ∈ utils, u = PyFloat.num 0 ∨ u = PyFloat.nan) ∧
       ((∀ u ∈ utils, u = PyFloat.num 0) →
         maximizers (seat_options mC4) utils = seat_options mC4) ∧
       (PyFloat.nan ∈ utils → maximizers (seat_options mC4) utils = []))) := by
  refine ⟨⟨by decide, rfl⟩, ?_⟩
  exact zero_sum_coefs_utility_mode cdC4 [0, 0, 0, 0] (some [1, 1]) (some [1, 1]) 0
    (fun _ _ _ _ => 0) (fun _ _ _ => 0) mC4 (by decide) rfl

/-! ## Claim C2: range of the utility components -/

theorem mget_bounds (m : List (List ℚ))
    (hm : ∀ r ∈ m, ∀ v ∈ r, 0 ≤ v ∧ v ≤ 1) (i j : ℕ) :
    0 ≤ mget m i j ∧ mget m i j ≤ 1 := by
  unfold mget
  cases hr : m.get? i with
  | none => simp
  | some r =>
    simp only [Option.getD_some]
    cases hv : r.get? j with
    | none => simp
    | some v =>
      simp only [Option.getD_some]
      exact hm r (List.get?_mem hr) v (List.get?_mem hv)


theorem div_sub_bounds (c : ℚ) (mp : ℚ) (hmp : 0 < mp) (hc0 : 0 ≤ c) (hc : c ≤ mp) :
    0 ≤ 1 - c / mp ∧ 1 - c / mp ≤ 1 := by
  constructor
  · have : c / mp ≤ 1 := (div_le_one hmp).mpr hc
    linarith
  · have : 0 ≤ c / mp := div_nonneg hc0 (le_of_lt hmp)
    linarith

theorem accessibility_bounds (s : ModelState) (seat : Seat)
    (hmp : 0 < s.classroom.max_pass)
    (hcl : countBounded (countLeft s seat.pos.1 seat.pos.2) s.classroom.max_pass = true)
    (hcr : countBounded (countRight s seat.pos.1 seat.pos.2) s.classroom.max_pass = true) :
    ∀ a, get_accessibility s seat = some (PyFloat.num a) → 0 ≤ a ∧ a ≤ 1 := by
  intro a ha
  have hmpq : (0 : ℚ) < (s.classroom.max_pass : ℚ) := by exact_mod_cast hmp
  unfold get_accessibility at ha
  rw [if_neg (by intro hc; rw [hc] at hmp; exact lt_irrefl 0 hmp)] at ha
  cases hl : countLeft s seat.pos.1 seat.pos.2 with
  | some cl =>
    rw [hl] at hcl
    simp only [countBounded, decide_eq_true_eq] at hcl
    cases hr : countRight s seat.pos.1 seat.pos.2 with
    | some cr =>
      rw [hr] at hcr
      simp only [countBounded, decide_eq_true_eq] at hcr
      rw [hl, hr] at ha
      simp only [Option.some_inj, PyFloat.num.injEq] at ha
      subst ha
      apply div_sub_bounds _ _ hmpq (by positivity)
      have : ((min cr cl : ℕ) : ℤ) ≤ s.classroom.max_pass := by
        rcases min_choice cr cl with hm | hm <;> rw [hm]
        · exact hcr
        · exact hcl
      exact_mod_cast this
    | none =>
      rw [hl, hr] at ha
      simp only [Option.some_inj, PyFloat.num.injEq] at ha
      subst ha
      apply div_sub_bounds _ _ hmpq (by positivity)
      exact_mod_cast hcl
  | none =>
    cases hr : countRight s seat.pos.1 seat.pos.2 with
    | some cr =>
      rw [hr] at hcr
      simp only [countBounded, decide_eq_true_eq] at hcr
      rw [hl, hr] at ha
      simp only [Option.some_inj, PyFloat.num.injEq] at ha
      subst ha
      apply div_sub_bounds _ _ hmpq (by positivity)
      exact_mod_cast hcr
    | none => rw [hl, hr, if_pos hmp] at ha; simp at ha

theorem social_fold_bounds (s : ModelState) (st : Student) (pos : ℕ × ℕ)
    (ix iy : ℕ)
    (hnet : ∀ i j, 0 ≤ s.social_network i j ∧ s.social_network i j ≤ 1)
    (hw : ∀ i j, 0 ≤ mget s.friendship_interaction_matrix i j) :
    ∀ (cells : List (ℕ × ℕ)) (p0 : ℚ × ℚ),
      p0.1 ≤ (cells.foldl (socialStep s st pos ix iy) p0).1 ∧
      (cells.foldl (socialStep s st pos ix iy) p0).1 ≤
        p0.1 + (cells.map (fun xy => mget s.friendship_interaction_matrix xy.1 xy.2)).sum := by
  intro cells
  induction cells with
  | nil => intro p0; simp
  | cons c t ih =>
    intro p0
    simp only [List.foldl_cons, List.map_cons, List.sum_cons]
    have hstep : p0.1 ≤ (socialStep s st pos ix iy p0 c).1 ∧
        (socialStep s st pos ix iy p0 c).1 ≤
          p0.1 + mget s.friendship_interaction_matrix c.1 c.2 := by
      unfold socialStep
      cases get_neighborhood s pos ix iy c.1 c.2 with
      | none => simp [hw c.1 c.2]
      | some nid =>
        simp only
        constructor
        · have := mul_nonneg (hw c.1 c.2) (hnet st.unique_id nid).1
          linarith
        · have := mul_le_of_le_one_right (hw c.1 c.2) (hnet st.unique_id nid).2
          linarith
    rcases ih (socialStep s st pos ix iy p0 c) with ⟨ih1, ih2⟩
    constructor
    · exact le_trans hstep.1 ih1
    · calc (t.foldl (socialStep s st pos ix iy) (socialStep s st pos ix iy p0 c)).1
          ≤ (socialStep s st pos ix iy p0 c).1 +
            (t.map (fun xy => mget s.friendship_interaction_matrix xy.1 xy.2)).sum := ih2
        _ ≤ p0.1 + mget s.friendship_interaction_matrix c.1 c.2 +
            (t.map (fun xy => mget s.friendship_interaction_matrix xy.1 xy.2)).sum := by
            exact add_le_add_right hstep.2 _
        _ = p0.1 + (mget s.friendship_interaction_matrix c.1 c.2 +
            (t.map (fun xy => mget s.friendship_interaction_matrix xy.1 xy.2)).sum) := by ring

theorem social_utility_inv (s : ModelState) (st : Student) (seat : Seat)
    (fs : ℚ × ℚ) (h : get_social_utility s st seat = some fs) :
    fs.1 = (socialAccum s st seat.pos).1 := by
  unfold get_social_utility at h
  split at h
  · cases h
  · simp only [Option.some_inj] at h
    rw [← h]

/-- **C2 counterexample.**  The coefficients `[0,0,1,0]` are each in
`[0,1]` and sum to 1, yet the total utility of the first (unoccupied) seat
for the admitted occupant is `-2`: the occupant has no neighbors, so its
raw sociability score is 0, and the rescaling `(0 - 2) / (3 - 2)` by the
run's sampled sociability min 2 and max 3 leaves `[0,1]`. -/
theorem total_utility_out_of_range_cex :
    (∀ x ∈ mC2.coefs, 0 ≤ x ∧ x ≤ 1) ∧ mC2.coefs.sum = 1 ∧
    (mC2.seats.headD dummySeat).student = none ∧
    get_total_utility mC2 (mC2.students.headD defaultStudent)
      (mC2.seats.headD dummySeat) = some (PyFloat.num (-2)) ∧
    ¬ ((0 : ℚ) ≤ -2) := by
  exact ⟨by decide, by decide, by decide, by decide, by norm_num⟩

/-- **C2 (amended).**  Whenever the four coefficients are each in `[0,1]`
and sum to 1: the position utility lies in `[0,1]` provided the layout's
utility entries do (true for a nonnegative supplied matrix, not in
general); the accessibility lies in `[0,1]` provided `maxPassage > 0` and
the per-side blocked counts do not exceed it; the friendship component lies
in `[0,1]` provided the tie matrix has entries in `[0,1]`; and the total
utility lies in `[0,1]` provided additionally that the rescaled sociability
component lies in `[0,1]` — which the rescaling does **not** guarantee (see
the counterexample: a raw score of 0 with all-positive sampled
sociabilities rescales below 0). -/
theorem utility_components_bounds (s : ModelState) (st : Student) (seat : Seat)
    (hcoefs : ∀ x ∈ s.coefs, 0 ≤ x ∧ x ≤ 1) (hsum : s.coefs.sum = 1)
    (hpos : ∀ r ∈ s.classroom.pos_utilities, ∀ v ∈ r, 0 ≤ v ∧ v ≤ 1)
    (hmp : 0 < s.classroom.max_pass)
    (hcl : countBounded (countLeft s seat.pos.1 seat.pos.2) s.classroom.max_pass = true)
    (hcr : countBounded (countRight s seat.pos.1 seat.pos.2) s.classroom.max_pass = true)
    (hnet : ∀ i j, 0 ≤ s.social_network i j ∧ s.social_network i j ≤ 1)
    (hmat : s.friendship_interaction_matrix = [[0, 1/2, 0], [0, 0, 0], [0, 1/2, 0]]) :
    (0 ≤ get_position_utility s seat ∧ get_position_utility s seat ≤ 1) ∧
    (∀ a, get_accessibility s seat = some (PyFloat.num a) → 0 ≤ a ∧ a ≤ 1) ∧
    (∀ fs, get_social_utility s st seat = some fs → 0 ≤ fs.1 ∧ fs.1 ≤ 1) ∧
    (∀ u fs, get_total_utility s st seat = some (PyFloat.num u) →
      get_social_utility s st seat = some fs → 0 ≤ fs.2 → fs.2 ≤ 1 →
      0 ≤ u ∧ u ≤ 1) := by
  have hposb : 0 ≤ get_position_utility s seat ∧ get_position_utility s seat ≤ 1 :=
    mget_bounds _ hpos _ _
  have haccb := accessibility_bounds s seat hmp hcl hcr
  have hw : ∀ i j, 0 ≤ mget s.friendship_interaction_matrix i j := by
    intro i j
    rw [hmat]
    rcases i with _ | _ | _ | i <;> rcases j with _ | _ | _ | j <;>
      simp [mget]
  have hfriendb : ∀ fs, get_social_utility s st seat = some fs →
      0 ≤ fs.1 ∧ fs.1 ≤ 1 := by
    intro fs hfs
    rw [social_utility_inv s st seat fs hfs]
    unfold socialAccum
    have hb := social_fold_bounds s st seat.pos
      s.friendship_interaction_matrix.length
      (s.friendship_interaction_matrix.headD []).length hnet hw
      (((List.range s.friendship_interaction_matrix.length).map
        (fun x => (List.range (s.friendship_interaction_matrix.headD []).length).map
          (fun y => (x, y)))).flatten) (0, 0)
    have hwsum : ((((List.range s.friendship_interaction_matrix.length).map
        (fun x => (List.range (s.friendship_interaction_matrix.headD []).length).map
          (fun y => (x, y)))).flatten).map
        (fun xy => mget s.friendship_interaction_matrix xy.1 xy.2)).sum = 1 := by
      rw [hmat]
      decide
    rw [hmat] at hb hwsum ⊢
    constructor
    · exact hb.1
    · have := hb.2
      rw [hwsum] at this
      simpa using this
  refine ⟨hposb, haccb, hfriendb, ?_⟩
  intro u fs hu hfs hs0 hs1
  rcases total_utility_num_inv s st seat u hu with ⟨fs2, a, p, f, c, ad, hsoc2, hcoefs4, hacc, hval⟩
  rw [hfs] at hsoc2
  obtain rfl : fs = fs2 := Option.some_inj.mp hsoc2
  have hp := hcoefs p (by rw [hcoefs4]; simp)
  have hf := hcoefs f (by rw [hcoefs4]; simp)
  have hc := hcoefs c (by rw [hcoefs4]; simp)
  have had := hcoefs ad (by rw [hcoefs4]; simp)
  have hsum4 : p + (f + (c + ad)) = 1 := by
    rw [hcoefs4] at hsum
    simpa using hsum
  have hfb := hfriendb fs hfs
  have hab := haccb a hacc
  constructor
  · rw [hval]
    have t1 := mul_nonneg hp.1 hposb.1
    have t2 := mul_nonneg hf.1 hfb.1
    have t3 := mul_nonneg hc.1 hs0
    have t4 := mul_nonneg had.1 hab.1
    linarith
  · rw [hval]
    have t1 := mul_le_of_le_one_right hp.1 hposb.2
    have t2 := mul_le_of_le_one_right hf.1 hfb.2
    have t3 := mul_le_of_le_one_right hc.1 hs1
    have t4 := mul_le_of_le_one_right had.1 hab.2
    linarith


/-- Witness for C2 (amended) at the concrete configuration. -/
theorem utility_components_bounds_witness :
    ((∀ x ∈ mC2w.coefs, 0 ≤ x ∧ x ≤ 1) ∧ mC2w.coefs.sum = 1 ∧
     (∀ r ∈ mC2w.classroom.pos_utilities, ∀ v ∈ r, 0 ≤ v ∧ v ≤ 1) ∧
     0 < mC2w.classroom.max_pass ∧
     countBounded (countLeft mC2w (mC2w.seats.headD dummySeat).pos.1
       (mC2w.seats.headD dummySeat).pos.2) mC2w.classroom.max_pass = true ∧
     countBounded (countRight mC2w (mC2w.seats.headD dummySeat).pos.1
       (mC2w.seats.headD dummySeat).pos.2) mC2w.classroom.max_pass = true ∧
     mC2w.friendship_interaction_matrix = [[0, 1/2, 0], [0, 0, 0], [0, 1/2, 0]]) ∧
    ((0 ≤ get_position_utility mC2w (mC2w.seats.headD dummySeat) ∧
      get_position_utility mC2w (mC2w.seats.headD dummySeat) ≤ 1) ∧
     (∀ a, get_accessibility mC2w (mC2w.seats.headD dummySeat) = some (PyFloat.num a) →
       0 ≤ a ∧ a ≤ 1) ∧
     (∀ fs, get_social_utility mC2w (mC2w.students.headD defaultStudent)
       (mC2w.seats.headD dummySeat) = some fs → 0 ≤ fs.1 ∧ fs.1 ≤ 1) ∧
     (∀ u fs, get_total_utility mC2w (mC2w.students.headD defaultStudent)
       (mC2w.seats.headD dummySeat) = some (PyFloat.num u) →
       get_social_utility mC2w (mC2w.students.headD defaultStudent)
         (mC2w.seats.headD dummySeat) = some fs → 0 ≤ fs.2 → fs.2 ≤ 1 →
       0 ≤ u ∧ u ≤ 1)) := by
  have hnet : ∀ i j, 0 ≤ mC2w.social_network i j ∧ mC2w.social_network i j ≤ 1 := by
    intro i j
    have h : mC2w.social_network i j = 0 := rfl
    rw [h]
    norm_num
  refine ⟨⟨by decide, by decide, by decide, by decide, by decide, by decide, by decide⟩, ?_⟩
  exact utility_components_bounds mC2w (mC2w.students.headD defaultStudent)
    (mC2w.seats.headD dummySeat) (by decide) (by decide) (by decide) (by decide)
    (by decide) (by decide) hnet (by decide)

/-! ## Claim C3: the accessibility count -/

theorem foldl_min_choice {α : Type} [LinearOrder α] (t : List α) :
    ∀ h : α, t.foldl min h = h ∨ t.foldl min h ∈ t := by
  induction t with
  | nil => intro h; left; rfl
  | cons a t ih =>
    intro h
    simp only [List.foldl_cons]
    rcases ih (min h a) with hc | hc
    · rw [hc]
      rcases min_choice h a with hm | hm
      · left; exact hm
      · right; rw [hm]; simp
    · right; exact List.mem_cons_of_mem a hc

theorem listMaxN_mem (l : List ℕ) (v : ℕ) (h : listMaxN l = some v) : v ∈ l := by
  cases l with
  | nil => cases h
  | cons a t =>
    simp only [listMaxN, Option.some_inj] at h
    subst h
    rcases foldl_max_choice t a with hc | hc
    · rw [hc]; simp
    · exact List.mem_cons_of_mem a hc

theorem listMinN_mem (l : List ℕ) (v : ℕ) (h : listMinN l = some v) : v ∈ l := by
  cases l with
  | nil => cases h
  | cons a t =>
    simp only [listMinN, Option.some_inj] at h
    subst h
    rcases foldl_min_choice t a with hc | hc
    · rw [hc]; simp
    · exact List.mem_cons_of_mem a hc

theorem argmin_fold_max (x : ℕ) : ∀ (l : List ℕ) (b : ℕ),
    ((l.map (fun a => ((a : ℕ), (x : ℤ) - (a : ℤ)))).foldl
      (fun acc p => match acc with
        | none => some p
        | some q => if p.2 < q.2 then some p else some q)
      (some ((b : ℕ), (x : ℤ) - (b : ℤ)))) =
    some (l.foldl max b, (x : ℤ) - ((l.foldl max b : ℕ) : ℤ)) := by
  intro l
  induction l with
  | nil => intro b; rfl
  | cons a t ih =>
    intro b
    simp only [List.map_cons, List.foldl_cons]
    have hstep : (if ((x : ℤ) - (a : ℤ)) < ((x : ℤ) - (b : ℤ))
        then some ((a : ℕ), (x : ℤ) - (a : ℤ))
        else some ((b : ℕ), (x : ℤ) - (b : ℤ))) =
        some ((max b a : ℕ), (x : ℤ) - ((max b a : ℕ) : ℤ)) := by
      rcases le_or_lt a b with hab | hab
      · rw [if_neg, max_eq_left hab]
        rw [not_lt, sub_le_sub_iff_left]
        exact_mod_cast hab
      · rw [if_pos, max_eq_right (le_of_lt hab)]
        rw [sub_lt_sub_iff_left]
        exact_mod_cast hab
    rw [hstep]
    exact ih (max b a)

theorem argmin_fold_min (x : ℕ) : ∀ (l : List ℕ) (b : ℕ),
    ((l.map (fun a => ((a : ℕ), (a : ℤ) - (x : ℤ)))).foldl
      (fun acc p => match acc with
        | none => some p
        | some q => if p.2 < q.2 then some p else some q)
      (some ((b : ℕ), (b : ℤ) - (x : ℤ)))) =
    some (l.foldl min b, ((l.foldl min b : ℕ) : ℤ) - (x : ℤ)) := by
  intro l
  induction l with
  | nil => intro b; rfl
  | cons a t ih =>
    intro b
    simp only [List.map_cons, List.foldl_cons]
    have hstep : (if ((a : ℤ) - (x : ℤ)) < ((b : ℤ) - (x : ℤ))
        then some ((a : ℕ), (a : ℤ) - (x : ℤ))
        else some ((b : ℕ), (b : ℤ) - (x : ℤ))) =
        some ((min b a : ℕ), ((min b a : ℕ) : ℤ) - (x : ℤ)) := by
      rcases le_or_lt b a with hab | hab
      · rw [if_neg, min_eq_left hab]
        rw [not_lt, sub_le_sub_iff_right]
        exact_mod_cast hab
      · rw [if_pos, min_eq_right (le_of_lt hab)]
        rw [sub_lt_sub_iff_right]
        exact_mod_cast hab
    rw [hstep]
    exact ih (min b a)

theorem aisleLeft_eq (axs : List ℕ) (x : ℕ) :
    aisleLeft axs x = nearestAisleLeft axs x := by
  unfold aisleLeft nearestAisleLeft distPairs
  have hfl : ((axs.map (fun a => ((a : ℕ), (x : ℤ) - (a : ℤ)))).filter
      (fun p => decide (0 < p.2))) =
      ((axs.filter (fun a => decide (a < x))).map (fun a => ((a : ℕ), (x : ℤ) - (a : ℤ)))) := by
    rw [List.filter_map]
    congr 1
    apply List.filter_congr
    intro a _
    simp only [Function.comp_apply, decide_eq_decide]
    omega
  rw [hfl]
  cases hc : axs.filter (fun a => decide (a < x)) with
  | nil => rfl
  | cons h t =>
    simp only [List.map_cons, listMaxN]
    unfold argminSnd
    simp only [List.foldl_cons]
    rw [argmin_fold_max x t h]
    rfl

theorem aisleRight_eq (axs : List ℕ) (x : ℕ) :
    aisleRight axs x = nearestAisleRight axs x := by
  unfold aisleRight nearestAisleRight distPairs
  have hfl : (((axs.map (fun a => ((a : ℕ), (x : ℤ) - (a : ℤ)))).filter
      (fun p => decide (p.2 < 0))).map (fun p => (p.1, |p.2|))) =
      ((axs.filter (fun a => decide (x < a))).map (fun a => ((a : ℕ), (a : ℤ) - (x : ℤ)))) := by
    rw [List.filter_map, List.map_map]
    have hcond : (axs.filter ((fun p : ℕ × ℤ => decide (p.2 < 0)) ∘
        (fun a => ((a : ℕ), (x : ℤ) - (a : ℤ))))) = axs.filter (fun a => decide (x < a)) := by
      apply List.filter_congr
      intro a _
      simp only [Function.comp_apply, decide_eq_decide]
      omega
    rw [hcond]
    apply List.map_congr_left
    intro a ha
    have hax : x < a := by
      have := List.of_mem_filter ha
      simpa using this
    simp only [Function.comp_apply]
    congr 1
    rw [abs_of_nonpos (by omega : (x : ℤ) - (a : ℤ) ≤ 0)]
    omega
  rw [hfl]
  cases hc : axs.filter (fun a => decide (x < a)) with
  | nil => rfl
  | cons h t =>
    simp only [List.map_cons, listMinN]
    unfold argminSnd
    simp only [List.foldl_cons]
    rw [argmin_fold_min x t h]
    rfl

theorem countP_or_split {α : Type} (p q : α → Prop) [DecidablePred p] [DecidablePred q] :
    ∀ l : List α, (∀ a ∈ l, ¬(p a ∧ q a)) →
    l.countP (fun a => decide (p a ∨ q a)) =
      l.countP (fun a => decide (p a)) + l.countP (fun a => decide (q a)) := by
  intro l
  induction l with
  | nil => intro _; simp
  | cons a t ih =>
    intro h
    have ht := ih (fun b hb => h b (List.mem_cons_of_mem a hb))
    have ha := h a (List.mem_cons_self a t)
    simp only [List.countP_cons, ht]
    by_cases hp : p a <;> by_cases hq : q a <;> simp [hp, hq] <;> try omega
    exact absurd ⟨hp, hq⟩ ha

theorem sum_cellStudents (s : ModelState) (y : ℕ) :
    ∀ L : List ℕ, L.Nodup →
    (L.map (fun i => (cellStudents s (i, y)).length)).sum =
      s.students.countP (fun st => decide (st.pos.1 ∈ L ∧ st.pos.2 = y)) := by
  intro L
  induction L with
  | nil =>
    intro _
    simp only [List.map_nil, List.sum_nil]
    symm
    rw [List.countP_eq_zero]
    intro st _
    simp
  | cons a t ih =>
    intro hnd
    rcases List.nodup_cons.mp hnd with ⟨hna, hndt⟩
    simp only [List.map_cons, List.sum_cons, ih hndt]
    have hlen : (cellStudents s (a, y)).length =
        s.students.countP (fun st => decide (st.pos = (a, y))) := by
      unfold cellStudents
      rw [List.countP_eq_length_filter]
    have hdisj : ∀ st ∈ s.students,
        ¬(st.pos = (a, y) ∧ (st.pos.1 ∈ t ∧ st.pos.2 = y)) := by
      intro st _
      rintro ⟨h1, h2⟩
      rw [h1] at h2
      exact hna h2.1
    have hor := countP_or_split (fun st => st.pos = (a, y))
      (fun st => st.pos.1 ∈ t ∧ st.pos.2 = y) s.students hdisj
    have hcong : s.students.countP (fun st => decide (st.pos.1 ∈ a :: t ∧ st.pos.2 = y)) =
        s.students.countP (fun st =>
          decide (st.pos = (a, y) ∨ (st.pos.1 ∈ t ∧ st.pos.2 = y))) := by
      apply List.countP_congr
      intro st _
      simp only [decide_eq_true_eq, List.mem_cons, Prod.ext_iff]
      constructor
      · rintro ⟨h1 | h1, h2⟩
        · exact Or.inl ⟨h1, h2⟩
        · exact Or.inr ⟨h1, h2⟩
      · rintro (⟨h1, h2⟩ | ⟨h1, h2⟩)
        · exact ⟨Or.inl h1, h2⟩
        · exact ⟨Or.inr h1, h2⟩
    rw [hcong, hor, hlen]

theorem countLeft_eq (s : ModelState) (x y : ℕ) :
    countLeft s x y =
      (nearestAisleLeft s.classroom.aisles_x x).map (fun al => occupantsBetween s y al x) := by
  unfold countLeft
  rw [aisleLeft_eq]
  cases hal : nearestAisleLeft s.classroom.aisles_x x with
  | none => rfl
  | some al =>
    have halx : al < x := by
      have hmem := listMaxN_mem _ _ hal
      have := List.of_mem_filter hmem
      simpa using this
    simp only [Option.map_some]
    congr 1
    rw [sum_cellStudents s y _ (List.nodup_range' _ _)]
    unfold occupantsBetween
    apply List.countP_congr
    intro st _
    simp only [decide_eq_true_eq, List.mem_range'_1]
    omega

theorem countRight_eq (s : ModelState) (x y : ℕ) :
    countRight s x y =
      (nearestAisleRight s.classroom.aisles_x x).map (fun ar => occupantsBetween s y x ar) := by
  unfold countRight
  rw [aisleRight_eq]
  cases har : nearestAisleRight s.classroom.aisles_x x with
  | none => rfl
  | some ar =>
    have harx : x < ar := by
      have hmem := listMinN_mem _ _ har
      have := List.of_mem_filter hmem
      simpa using this
    simp only [Option.map_some]
    congr 1
    rw [sum_cellStudents s y _ (List.nodup_range' _ _)]
    unfold occupantsBetween
    apply List.countP_congr
    intro st _
    simp only [decide_eq_true_eq, List.mem_range'_1]
    omega

/-- **C3 counterexample.**  The claim says only currently-seated occupants
are counted ("an unseated occupant standing on such a cell is not
counted").  The source counts every agent of type `Student` on the cells,
seated or not: in `mC3` an admitted, still-unseated student stands on the
entrance cell (1,1); for the seat at (0,1) (no aisle on the left, aisle at
column 3 on the right, `max_pass` 2) the code yields `1 - 1/2 = 1/2`,
while the claim's seated-only formula yields `1 - 0/2 = 1`. -/
theorem accessibility_counts_unseated_cex :
    (mC3.students.headD defaultStudent).seated = false ∧
    (mC3.students.headD defaultStudent).pos = (1, 1) ∧
    (mC3.seats.headD dummySeat).pos = (0, 1) ∧
    get_accessibility mC3 (mC3.seats.headD dummySeat) = some (PyFloat.num (1/2)) ∧
    accessibility_spec mC3 (mC3.seats.headD dummySeat) = some (PyFloat.num 1) ∧
    ((1 : ℚ)/2 ≠ 1) := by
  exact ⟨by decide, by decide, by decide, by decide, by decide, by norm_num⟩

/-- **C3 (amended).**  For every seat, the accessibility computation equals
`1 − min(leftCount, rightCount)/maxPassage`, where `leftCount` and
`rightCount` count **every occupant standing on a cell** strictly between
the seat and the nearest aisle on that side within the same row — seated
occupants and admitted-but-unseated occupants standing there alike — a
side with no aisle being treated as unbounded (never the minimum).  When
neither side has an aisle the computation does not fail: it yields the
float `-inf` (`1 - inf/maxPassage`; `+inf` if `maxPassage` is negative)
and proceeds with that value.  It fails only when `maxPassage` is 0
(division by zero). -/
theorem accessibility_closed_form (s : ModelState) (seat : Seat) :
    get_accessibility s seat = accessibility_decl s seat := by
  unfold get_accessibility accessibility_decl
  dsimp only
  rw [countLeft_eq, countRight_eq]
  cases nearestAisleLeft s.classroom.aisles_x seat.pos.1 with
  | none =>
    cases nearestAisleRight s.classroom.aisles_x seat.pos.1 with
    | none => rfl
    | some ar => rfl
  | some al =>
    cases nearestAisleRight s.classroom.aisles_x seat.pos.1 with
    | none => rfl
    | some ar => rfl

/-! ## Claim C1: utility-driven selection is argmax with random tie-break -/

theorem mapOpt_zip_mem {α β : Type} (f : α → Option β) :
    ∀ (l : List α) (ys : List β), mapOpt f l = some ys →
      ∀ a ∈ l, ∃ b, (a, b) ∈ l.zip ys ∧ f a = some b := by
  intro l
  induction l with
  | nil => intro ys _ a ha; cases ha
  | cons x t ih =>
    intro ys h a ha
    simp only [mapOpt] at h
    cases hfa : f x with
    | none => rw [hfa] at h; simp at h
    | some b =>
      cases hmt : mapOpt f t with
      | none => rw [hfa, hmt] at h; simp at h
      | some bs =>
        rw [hfa, hmt] at h
        simp only [Option.some_inj] at h
        subst h
        rcases List.mem_cons.mp ha with rfl | ha2
        · exact ⟨b, by simp, hfa⟩
        · rcases ih bs hmt a ha2 with ⟨b2, hmem, hfa2⟩
          exact ⟨b2, List.mem_cons_of_mem _ hmem, hfa2⟩

theorem mapOpt_zip_mem_snd {α β : Type} (f : α → Option β) :
    ∀ (l : List α) (ys : List β), mapOpt f l = some ys →
      ∀ b ∈ ys, ∃ a, (a, b) ∈ l.zip ys ∧ f a = some b := by
  intro l
  induction l with
  | nil => intro ys h b hb; simp [mapOpt] at h; subst h; cases hb
  | cons x t ih =>
    intro ys h b hb
    simp only [mapOpt] at h
    cases hfa : f x with
    | none => rw [hfa] at h; simp at h
    | some c =>
      cases hmt : mapOpt f t with
      | none => rw [hfa, hmt] at h; simp at h
      | some bs =>
        rw [hfa, hmt] at h
        simp only [Option.some_inj] at h
        subst h
        rcases List.mem_cons.mp hb with rfl | hb2
        · exact ⟨x, by simp, hfa⟩
        · rcases ih bs hmt b hb2 with ⟨a, hmem, hfa2⟩
          exact ⟨a, List.mem_cons_of_mem _ hmem, hfa2⟩

theorem maximizers_spec (s : ModelState) (st : Student) (opts : List Seat)
    (utils : List PyFloat) (hmap : mapOpt (get_total_utility s st) opts = some utils) :
    ∀ c ∈ maximizers opts utils, c ∈ opts ∧
      get_total_utility s st c = some (maxPy utils) := by
  intro c hc
  unfold maximizers at hc
  rcases List.mem_map.mp hc with ⟨p, hpf, hp1⟩
  have hpz := List.mem_of_mem_filter hpf
  have hpmax : p.2 = maxPy utils := by
    have := List.of_mem_filter hpf
    exact pyEq_eq _ _ (by simpa using this)
  have hfc := mapOpt_some_zip _ _ _ hmap p hpz
  subst hp1
  exact ⟨(List.of_mem_zip hpz).1, by rw [hfc, hpmax]⟩

theorem maximizers_complete (s : ModelState) (st : Student) (opts : List Seat)
    (utils : List PyFloat) (hmap : mapOpt (get_total_utility s st) opts = some utils)
    (hnn : PyFloat.nan ∉ utils) :
    ∀ seat ∈ opts, get_total_utility s st seat = some (maxPy utils) →
      seat ∈ maximizers opts utils := by
  intro seat hseat hval
  have hlen := mapOpt_some_length _ _ _ hmap
  have hune : utils ≠ [] := by
    intro hc
    rw [hc] at hlen
    have : opts = [] := List.length_eq_zero.mp (by simpa using hlen.symm)
    rw [this] at hseat
    cases hseat
  have hmaxnn : maxPy utils ≠ PyFloat.nan :=
    maxPy_ne_nan utils hune (fun u hu hc => hnn (hc ▸ hu))
  rcases mapOpt_zip_mem _ _ _ hmap seat hseat with ⟨b, hbz, hfb⟩
  have hb : b = maxPy utils := by
    rw [hval] at hfb
    exact (Option.some_inj.mp hfb).symm
  unfold maximizers
  apply List.mem_map.mpr
  refine ⟨(seat, b), ?_, rfl⟩
  apply List.mem_filter.mpr
  refine ⟨hbz, ?_⟩
  show pyEq b (maxPy utils) = true
  rw [hb]
  exact pyEq_refl _ hmaxnn

theorem maximizers_ne_nil (s : ModelState) (st : Student) (opts : List Seat)
    (utils : List PyFloat) (hmap : mapOpt (get_total_utility s st) opts = some utils)
    (hopts : opts ≠ []) (hnn : PyFloat.nan ∉ utils) : maximizers opts utils ≠ [] := by
  have hlen := mapOpt_some_length _ _ _ hmap
  have hune : utils ≠ [] := by
    intro hc
    rw [hc] at hlen
    exact hopts (List.length_eq_zero.mp (by simpa using hlen.symm))
  have hmaxnn : maxPy utils ≠ PyFloat.nan :=
    maxPy_ne_nan utils hune (fun u hu hc => hnn (hc ▸ hu))
  have hmem := maxPy_mem utils hune
  rcases mapOpt_zip_mem_snd _ _ _ hmap _ hmem with ⟨a, haz, hfa⟩
  intro hc
  have : a ∈ maximizers opts utils := by
    unfold maximizers
    apply List.mem_map.mpr
    refine ⟨(a, maxPy utils), ?_, rfl⟩
    apply List.mem_filter.mpr
    refine ⟨haz, ?_⟩
    show pyEq (maxPy utils) (maxPy utils) = true
    exact pyEq_refl _ hmaxnn
  rw [hc] at this
  cases this

theorem select_max_mem (opts : List Seat) (utils : List PyFloat) (g : RNG)
    (hne : maximizers opts utils ≠ []) :
    (select_max opts utils g).1 ∈ maximizers opts utils := by
  unfold select_max randNat
  simp only
  have hpos : 0 < (maximizers opts utils).length := List.length_pos.mpr hne
  have hlt : g 0 % (maximizers opts utils).length < (maximizers opts utils).length :=
    Nat.mod_lt _ hpos
  cases hget : (maximizers opts utils).get? (g 0 % (maximizers opts utils).length) with
  | none =>
    have := List.get?_eq_none.mp hget
    omega
  | some c =>
    simp only [Option.getD_some]
    exact List.get?_mem hget

theorem select_max_reach (opts : List Seat) (utils : List PyFloat) (seat : Seat)
    (h : seat ∈ maximizers opts utils) :
    ∃ g : RNG, (select_max opts utils g).1 = seat := by
  rcases List.mem_iff_get?.mp h with ⟨n, hn⟩
  have hlt : n < (maximizers opts utils).length := by
    rcases List.get?_eq_some.mp hn with ⟨hl, _⟩
    exact hl
  refine ⟨fun _ => n, ?_⟩
  unfold select_max randNat
  simp only
  rw [Nat.mod_eq_of_lt hlt, hn]
  rfl

theorem social_some_of_range (s : ModelState) (st : Student) (seat : Seat)
    (h : s.sociability_range.2 - s.sociability_range.1 ≠ 0) :
    ∃ fs, get_social_utility s st seat = some fs := by
  unfold get_social_utility
  rw [if_neg h]
  exact ⟨_, rfl⟩

theorem social_some_range_ne (s : ModelState) (st : Student) (seat : Seat)
    (fs : ℚ × ℚ) (h : get_social_utility s st seat = some fs) :
    s.sociability_range.2 - s.sociability_range.1 ≠ 0 := by
  unfold get_social_utility at h
  split at h
  · cases h
  · assumption

theorem commit_seat_some (s : ModelState) (st : Student) (seat : Seat)
    (hrange : s.sociability_range.2 - s.sociability_range.1 ≠ 0)
    (p f c ad : ℚ) (hcoefs : s.coefs = [p, f, c, ad]) :
    ∃ s1, commit_seat s st seat = some s1 ∧
      s1.seats = s.seats.map (fun t =>
        if t.pos = seat.pos then { t with student := some st.unique_id } else t) := by
  unfold commit_seat
  dsimp only
  rcases social_some_of_range
    { s with
      seats := s.seats.map (fun t =>
        if t.pos = seat.pos then { t with student := some st.unique_id } else t),
      students := s.students.map (fun t =>
        if t.unique_id = st.unique_id then { t with pos := seat.pos } else t) }
    { st with pos := seat.pos } seat hrange with ⟨fs, hfs⟩
  have hhe : ∃ hv, get_happiness
      { s with
        seats := s.seats.map (fun t =>
          if t.pos = seat.pos then { t with student := some st.unique_id } else t),
        students := s.students.map (fun t =>
          if t.unique_id = st.unique_id then { t with pos := seat.pos } else t) }
      { st with pos := seat.pos } seat = some hv := by
    unfold get_happiness
    rw [hfs]
    have hc2 : ({ s with
        seats := s.seats.map (fun t =>
          if t.pos = seat.pos then { t with student := some st.unique_id } else t),
        students := s.students.map (fun t =>
          if t.unique_id = st.unique_id then { t with pos := seat.pos } else t) } :
        ModelState).coefs = [p, f, c, ad] := hcoefs
    rw [hc2]
    exact ⟨_, rfl⟩
  rcases hhe with ⟨hv, hhe2⟩
  rw [hhe2]
  exact ⟨_, rfl, rfl⟩

theorem choose_seat_utility_eq (s : ModelState) (st : Student) (utils : List PyFloat)
    (hmode : s.random_seat_choice = false)
    (hopts : seat_options s ≠ [])
    (hmap : mapOpt (get_total_utility s st) (seat_options s) = some utils)
    (hms : (maximizers (seat_options s) utils).isEmpty = false) :
    choose_seat s st none =
      commit_seat { s with rng := (select_max (seat_options s) utils s.rng).2 } st
        (select_max (seat_options s) utils s.rng).1 := by
  unfold choose_seat
  dsimp only
  have hoe : (seat_options s).isEmpty = false := by
    cases hso : seat_options s with
    | nil => exact absurd hso hopts
    | cons a t => rfl
  rw [hoe]
  simp only [Bool.false_eq_true, if_false]
  rw [hmode]
  simp only [Bool.false_eq_true, if_false]
  rw [hmap]
  simp only [hms, Bool.false_eq_true, if_false]

/-- **C1 counterexample.**  The claim asserts that in utility-driven mode
(`random_seat_choice` false, coefficients not all zero) any occupant who
decides is committed to an unoccupied seat of maximal total utility
whenever one exists.  In `mC1x` the mode is utility-driven, the normalized
coefficients are `[0,0,1,0]` (not all zero), two unoccupied seats exist and
the deciding occupant is unseated — yet `choose_seat` commits no one: the
sociability sequence is the constant `[1,1]`, so the sampled range is
`(1,1)` and the very first total-utility evaluation raises
`ZeroDivisionError` in the sociability rescale. -/
theorem choose_seat_crash_cex :
    mC1x.random_seat_choice = false ∧
    mC1x.coefs = [0, 0, 1, 0] ∧
    (seat_options mC1x).length = 2 ∧
    (mC1x.students.headD defaultStudent).seated = false ∧
    choose_seat mC1x (mC1x.students.headD defaultStudent) none = none := by
  refine ⟨by decide, by decide, by decide, by decide, ?_⟩
  rfl

/-- **C1 (amended).**  In utility-driven mode (`random_seat_choice` false,
no predetermined target, no re-seating), with at least one unoccupied seat,
**provided additionally that every candidate's total utility evaluates and
none is `nan`** (the evaluation can instead raise — e.g. a constant
sociability sequence, see the counterexample — and with all-zero
coefficients and no aisle every utility is `nan`, emptying the candidate
set of the random choice): (1) for every draw of the random stream,
`choose_seat` commits the calling occupant to the drawn maximal seat — an
unoccupied seat whose total utility equals the float-maximum of the
candidate utilities, the seat's occupant field being set to the caller;
(2) the maximum is an upper bound of all candidate utilities in the float
order; and (3) every seat attaining the maximum is the selected seat for
some draw of the random stream — the tie is broken by the random draw, not
by index order. -/
theorem choose_seat_utility_argmax (s : ModelState) (st : Student)
    (utils : List PyFloat)
    (hmode : s.random_seat_choice = false)
    (hopts : seat_options s ≠ [])
    (hmap : mapOpt (get_total_utility s st) (seat_options s) = some utils)
    (hnan : PyFloat.nan ∉ utils) :
    (∀ g : RNG, ∃ s1, choose_seat { s with rng := g } st none = some s1 ∧
      (select_max (seat_options s) utils g).1 ∈ seat_options s ∧
      get_total_utility s st (select_max (seat_options s) utils g).1 =
        some (maxPy utils) ∧
      ∃ t ∈ s1.seats, t.pos = (select_max (seat_options s) utils g).1.pos ∧
        t.student = some st.unique_id) ∧
    (∀ u ∈ utils, pyLe u (maxPy utils) = true) ∧
    (∀ seat ∈ seat_options s, get_total_utility s st seat = some (maxPy utils) →
      ∃ g : RNG, (select_max (seat_options s) utils g).1 = seat) := by
  have hmne := maximizers_ne_nil s st _ utils hmap hopts hnan
  have hms : (maximizers (seat_options s) utils).isEmpty = false := by
    cases hmx : maximizers (seat_options s) utils with
    | nil => exact absurd hmx hmne
    | cons a t => rfl
  have hall : ∀ u ∈ utils, u ≠ PyFloat.nan := fun u hu hc => hnan (hc ▸ hu)
  rcases List.exists_mem_of_ne_nil _ hopts with ⟨seat0, hseat0⟩
  rcases mapOpt_some_of_mem _ _ _ hmap hseat0 with ⟨u0, _, hu0⟩
  rcases total_utility_inv s st seat0 u0 hu0 with
    ⟨fs0, a0, p, f, c, ad, hsoc0, hcoefs, _, _⟩
  have hrange := social_some_range_ne s st seat0 fs0 hsoc0
  refine ⟨?_, fun u hu => le_maxPy utils u hall hu, ?_⟩
  · intro g
    have hsel := select_max_mem (seat_options s) utils g hmne
    rcases maximizers_spec s st _ utils hmap _ hsel with ⟨hselopts, hselutil⟩
    have hcommit := commit_seat_some { s with rng := (select_max (seat_options s) utils g).2 }
      st (select_max (seat_options s) utils g).1 hrange p f c ad hcoefs
    rcases hcommit with ⟨s1, hc1, hc2⟩
    refine ⟨s1, ?_, hselopts, hselutil, ?_⟩
    · show choose_seat { s with rng := g } st none = some s1
      have heq := choose_seat_utility_eq { s with rng := g } st utils hmode hopts hmap hms
      rw [heq]
      exact hc1
    · have hmem : (select_max (seat_options s) utils g).1 ∈ s.seats :=
        List.mem_of_mem_filter hselopts
      refine ⟨{ (select_max (seat_options s) utils g).1 with
        student := some st.unique_id }, ?_, ?_, rfl⟩
      · rw [hc2]
        apply List.mem_map.mpr
        exact ⟨(select_max (seat_options s) utils g).1, hmem, by rw [if_pos rfl]⟩
      · rfl
  · intro seat hseat hval
    exact select_max_reach (seat_options s) utils seat
      (maximizers_complete s st _ utils hmap hnan seat hseat hval)

/-- Witness for C1 (amended) at the concrete configuration: candidate
utilities `[1/2, 1]`, maximum 1. -/
theorem choose_seat_utility_argmax_witness :
    (mC1.random_seat_choice = false ∧
     seat_options mC1 ≠ [] ∧
     mapOpt (get_total_utility mC1 (mC1.students.headD defaultStudent))
       (seat_options mC1) = some [PyFloat.num (1/2), PyFloat.num 1] ∧
     PyFloat.nan ∉ [PyFloat.num (1/2), PyFloat.num 1]) ∧
    ((∀ g : RNG, ∃ s1, choose_seat { mC1 with rng := g }
        (mC1.students.headD defaultStudent) none = some s1 ∧
      (select_max (seat_options mC1) [PyFloat.num (1/2), PyFloat.num 1] g).1 ∈
        seat_options mC1 ∧
      get_total_utility mC1 (mC1.students.headD defaultStudent)
        (select_max (seat_options mC1) [PyFloat.num (1/2), PyFloat.num 1] g).1 =
        some (maxPy [PyFloat.num (1/2), PyFloat.num 1]) ∧
      ∃ t ∈ s1.seats,
        t.pos = (select_max (seat_options mC1) [PyFloat.num (1/2), PyFloat.num 1] g).1.pos ∧
        t.student = some (mC1.students.headD defaultStudent).unique_id) ∧
     (∀ u ∈ [PyFloat.num (1/2), PyFloat.num 1],
       pyLe u (maxPy [PyFloat.num (1/2), PyFloat.num 1]) = true) ∧
     (∀ seat ∈ seat_options mC1,
       get_total_utility mC1 (mC1.students.headD defaultStudent) seat =
         some (maxPy [PyFloat.num (1/2), PyFloat.num 1]) →
       ∃ g : RNG, (select_max (seat_options mC1)
         [PyFloat.num (1/2), PyFloat.num 1] g).1 = seat)) := by
  refine ⟨⟨by decide, by decide, by decide, by decide⟩, ?_⟩
  exact choose_seat_utility_argmax mC1 (mC1.students.headD defaultStudent)
    [PyFloat.num (1/2), PyFloat.num 1] (by decide) (by decide) (by decide) (by decide)

/-! ## Claim C9: the exported snapshot is the seat-occupancy indicator -/

theorem pairs_nodup (xs ys : List ℕ) (hx : xs.Nodup) (hy : ys.Nodup) :
    ((xs.map (fun x => ys.map (fun y => ((x, y) : ℕ × ℕ)))).flatten).Nodup := by
  induction xs with
  | nil => simp
  | cons a t ih =>
    rcases List.nodup_cons.mp hx with ⟨hna, hnt⟩
    simp only [List.map_cons, List.flatten_cons]
    apply List.Nodup.append
    · exact hy.map (fun y1 y2 h => (Prod.mk.injEq _ _ _ _).mp h |>.2)
    · exact ih hnt
    · intro p hp1 hp2
      rcases List.mem_map.mp hp1 with ⟨y1, _, hy1⟩
      rcases List.mem_flatten.mp hp2 with ⟨l2, hl2, hpl2⟩
      rcases List.mem_map.mp hl2 with ⟨x2, hx2, hlx2⟩
      subst hlx2
      rcases List.mem_map.mp hpl2 with ⟨y2, _, hy2⟩
      rw [← hy1] at hy2
      have : x2 = a := ((Prod.mk.injEq _ _ _ _).mp hy2).1
      rw [this] at hx2
      exact hna hx2

theorem mkSeats_pos (cd : ClassroomDesign) :
    (mkSeats cd).map Seat.pos =
      ((((List.range cd.width).filter (fun x => ¬ x ∈ cd.aisles_x)).map (fun x =>
        ((List.range cd.num_rows).filter (fun y => ¬ y ∈ cd.aisles_y)).map (fun y =>
          ((x, y) : ℕ × ℕ)))).flatten) := by
  unfold mkSeats
  rw [List.map_flatten, List.map_map]
  congr 1
  apply List.map_congr_left
  intro x _
  simp only [Function.comp_apply, List.map_map]
  rfl

theorem mkSeats_pos_nodup (cd : ClassroomDesign) :
    ((mkSeats cd).map Seat.pos).Nodup := by
  rw [mkSeats_pos]
  exact pairs_nodup _ _ ((List.nodup_range _).filter _) ((List.nodup_range _).filter _)

theorem mkSeats_pos_mem (cd : ClassroomDesign) (x y : ℕ) :
    ((x, y) ∈ (mkSeats cd).map Seat.pos) ↔
      (x < cd.width ∧ ¬ x ∈ cd.aisles_x ∧ y < cd.num_rows ∧ ¬ y ∈ cd.aisles_y) := by
  rw [mkSeats_pos]
  constructor
  · intro h
    rcases List.mem_flatten.mp h with ⟨l, hl, hpl⟩
    rcases List.mem_map.mp hl with ⟨x2, hx2, hlx⟩
    subst hlx
    rcases List.mem_map.mp hpl with ⟨y2, hy2, hp⟩
    have hxy : x2 = x ∧ y2 = y := (Prod.mk.injEq _ _ _ _).mp hp
    rcases hxy with ⟨rfl, rfl⟩
    rcases List.mem_filter.mp hx2 with ⟨hxr, hxa⟩
    rcases List.mem_filter.mp hy2 with ⟨hyr, hya⟩
    refine ⟨List.mem_range.mp hxr, ?_, List.mem_range.mp hyr, ?_⟩
    · simpa using hxa
    · simpa using hya
  · rintro ⟨h1, h2, h3, h4⟩
    apply List.mem_flatten.mpr
    refine ⟨((List.range cd.num_rows).filter (fun y => ¬ y ∈ cd.aisles_y)).map
      (fun y => ((x, y) : ℕ × ℕ)), ?_, ?_⟩
    · apply List.mem_map.mpr
      refine ⟨x, ?_, rfl⟩
      apply List.mem_filter.mpr
      exact ⟨List.mem_range.mpr h1, by simpa using h2⟩
    · apply List.mem_map.mpr
      refine ⟨y, ?_, rfl⟩
      apply List.mem_filter.mpr
      exact ⟨List.mem_range.mpr h3, by simpa using h4⟩

/-- Field characterization of a successful `commit_seat`. -/
theorem commit_fields (s : ModelState) (st : Student) (seat : Seat)
    (s1 : ModelState) (h : commit_seat s st seat = some s1) :
    s1.classroom = s.classroom ∧
    s1.seats = s.seats.map (fun t =>
      if t.pos = seat.pos then { t with student := some st.unique_id } else t) ∧
    ∃ hv, s1.students = s.students.map (fun t =>
      if t.unique_id = st.unique_id then
        { t with pos := seat.pos, initial_happiness := hv, seated := true } else t) := by
  unfold commit_seat at h
  dsimp only at h
  cases hh : get_happiness
      { s with
        seats := s.seats.map (fun t =>
          if t.pos = seat.pos then { t with student := some st.unique_id } else t),
        students := s.students.map (fun t =>
          if t.unique_id = st.unique_id then { t with pos := seat.pos } else t) }
      { st with pos := seat.pos } seat with
  | none => rw [hh] at h; cases h
  | some hv =>
    rw [hh] at h
    simp only [Option.some_inj] at h
    subst h
    refine ⟨rfl, rfl, hv, ?_⟩
    simp only [List.map_map]
    apply List.map_congr_left
    intro t _
    simp only [Function.comp_apply]
    by_cases hid : t.unique_id = st.unique_id
    · simp only [if_pos hid]
    · simp only [if_neg hid]

/-- A successful commit preserves the invariant, seats the committing
student, and never unseats anyone or vacates a seat. -/
theorem commit_preserves (s : ModelState) (st : Student) (seat : Seat) (s1 : ModelState)
    (hInv : Inv s) (hst : st ∈ s.students) (hseated : st.seated = false)
    (hseat : seat ∈ s.seats) (hempty : seat.student = none)
    (h : commit_seat s st seat = some s1) :
    Inv s1 ∧ s1.classroom = s.classroom ∧ s1.students.length = s.students.length ∧
    (∀ i, idSeated s i → idSeated s1 i) ∧
    (allSeatsOccupied s → allSeatsOccupied s1) ∧
    idSeated s1 st.unique_id := by
  obtain ⟨hcls, hseats, hv, hstud⟩ := commit_fields s st seat s1 h
  obtain ⟨hg, hids, hSI, hTI⟩ := hInv
  have hpos_nodup : (s.seats.map Seat.pos).Nodup := by
    rw [hg]; exact mkSeats_pos_nodup _
  have hseat_inj := List.inj_on_of_nodup_map hpos_nodup
  have hids_nodup : (s.students.map Student.unique_id).Nodup := by
    rw [hids]; exact List.nodup_range _
  have hstud_inj := List.inj_on_of_nodup_map hids_nodup
  have hlen : s1.students.length = s.students.length := by
    rw [hstud]; exact List.length_map _ _
  have hposmap : s1.seats.map Seat.pos = s.seats.map Seat.pos := by
    rw [hseats, List.map_map]
    apply List.map_congr_left
    intro t _
    simp only [Function.comp_apply]
    by_cases hp : t.pos = seat.pos
    · rw [if_pos hp]
    · rw [if_neg hp]
  have hidmap : s1.students.map Student.unique_id = s.students.map Student.unique_id := by
    rw [hstud, List.map_map]
    apply List.map_congr_left
    intro t _
    simp only [Function.comp_apply]
    by_cases hid : t.unique_id = st.unique_id
    · rw [if_pos hid]
    · rw [if_neg hid]
  refine ⟨⟨?_, ?_, ?_, ?_⟩, hcls, hlen, ?_, ?_, ?_⟩
  · rw [hposmap, hcls, hg]
  · rw [hidmap, hlen, hids]
  · -- every seated student holds a seat
    intro st' hst' hseated'
    rw [hstud] at hst'
    rcases List.mem_map.mp hst' with ⟨t, ht, rfl⟩
    by_cases hid : t.unique_id = st.unique_id
    · rw [if_pos hid]
      refine ⟨{ seat with student := some st.unique_id }, ?_, ?_, ?_⟩
      · rw [hseats]
        exact List.mem_map.mpr ⟨seat, hseat, by rw [if_pos rfl]⟩
      · simp [hid]
      · rfl
    · rw [if_neg hid]
      rw [if_neg hid] at hseated'
      rcases hSI t ht hseated' with ⟨tw, htw, htw1, htw2⟩
      have hne : tw.pos ≠ seat.pos := by
        intro hc
        have : tw = seat := hseat_inj htw hseat hc
        rw [this, hempty] at htw1
        cases htw1
      refine ⟨tw, ?_, htw1, htw2⟩
      rw [hseats]
      exact List.mem_map.mpr ⟨tw, htw, by rw [if_neg hne]⟩
  · -- every occupied seat is held by a seated student on it
    intro t' ht' i hi
    rw [hseats] at ht'
    rcases List.mem_map.mp ht' with ⟨t, ht, rfl⟩
    by_cases hp : t.pos = seat.pos
    · have hts : t = seat := hseat_inj ht hseat hp
      subst hts
      rw [if_pos rfl] at hi ⊢
      have hieq : i = st.unique_id := by
        simpa using hi.symm
      subst hieq
      refine ⟨{ st with pos := t.pos, initial_happiness := hv, seated := true }, ?_, rfl, rfl, rfl⟩
      rw [hstud]
      exact List.mem_map.mpr ⟨st, hst, by rw [if_pos rfl]⟩
    · rw [if_neg hp] at hi ⊢
      rcases hTI t ht i hi with ⟨sw, hsw, hsw1, hsw2, hsw3⟩
      have hine : sw.unique_id ≠ st.unique_id := by
        intro hc
        have : sw = st := hstud_inj hsw hst hc
        rw [this] at hsw2
        rw [hseated] at hsw2
        cases hsw2
      refine ⟨sw, ?_, hsw1, hsw2, hsw3⟩
      rw [hstud]
      exact List.mem_map.mpr ⟨sw, hsw, by rw [if_neg hine]⟩
  · -- seatedness is monotone
    intro i hi
    rcases hi with ⟨sw, hsw, hsw1, hsw2⟩
    by_cases hid : sw.unique_id = st.unique_id
    · refine ⟨{ sw with pos := seat.pos, initial_happiness := hv, seated := true }, ?_, hsw1, rfl⟩
      rw [hstud]
      exact List.mem_map.mpr ⟨sw, hsw, by rw [if_pos hid]⟩
    · refine ⟨sw, ?_, hsw1, hsw2⟩
      rw [hstud]
      exact List.mem_map.mpr ⟨sw, hsw, by rw [if_neg hid]⟩
  · -- occupancy is monotone
    intro hall t' ht'
    rw [hseats] at ht'
    rcases List.mem_map.mp ht' with ⟨t, ht, rfl⟩
    by_cases hp : t.pos = seat.pos
    · rw [if_pos hp]
      simp
    · rw [if_neg hp]
      exact hall t ht
  · -- the committing student is now seated
    refine ⟨{ st with pos := seat.pos, initial_happiness := hv, seated := true }, ?_, rfl, rfl⟩
    rw [hstud]
    exact List.mem_map.mpr ⟨st, hst, by rw [if_pos rfl]⟩

theorem seat_options_empty_occupied (s : ModelState)
    (h : seat_options s = []) : allSeatsOccupied s := by
  intro t ht
  unfold seat_options at h
  have := List.filter_eq_nil_iff.mp h t ht
  simpa using this

theorem choose_seat_cases (s : ModelState) (st : Student) (s' : ModelState)
    (h : choose_seat s st none = some s') :
    (s' = s ∧ seat_options s = []) ∨
    (∃ seat ∈ seat_options s, ∃ g2 : RNG,
      commit_seat { s with rng := g2 } st seat = some s') := by
  unfold choose_seat at h
  dsimp only at h
  cases hoe : (seat_options s).isEmpty with
  | true =>
    rw [hoe] at h
    simp only [if_true] at h
    left
    exact ⟨(Option.some_inj.mp h).symm, List.isEmpty_iff.mp hoe⟩
  | false =>
    rw [hoe] at h
    simp only [Bool.false_eq_true, if_false] at h
    have hne : seat_options s ≠ [] := by
      intro hc
      rw [hc] at hoe
      cases hoe
    have hpos : 0 < (seat_options s).length := List.length_pos.mpr hne
    cases hrs : s.random_seat_choice with
    | true =>
      rw [hrs] at h
      simp only [if_true] at h
      right
      have hlt : (randNat s.rng (seat_options s).length).1 < (seat_options s).length := by
        unfold randNat
        exact Nat.mod_lt _ hpos
      cases hget : (seat_options s).get? (randNat s.rng (seat_options s).length).1 with
      | none =>
        have := List.get?_eq_none.mp hget
        omega
      | some c =>
        rw [hget] at h
        simp only [Option.getD_some] at h
        exact ⟨c, List.get?_mem hget, _, h⟩
    | false =>
      rw [hrs] at h
      simp only [Bool.false_eq_true, if_false] at h
      cases hmo : mapOpt (get_total_utility s st) (seat_options s) with
      | none => rw [hmo] at h; cases h
      | some utils =>
        rw [hmo] at h
        dsimp only at h
        cases hme : (maximizers (seat_options s) utils).isEmpty with
        | true =>
          rw [hme] at h
          simp only [if_true] at h
          cases h
        | false =>
          rw [hme] at h
          simp only [Bool.false_eq_true, if_false] at h
          right
          have hmne : maximizers (seat_options s) utils ≠ [] := by
            intro hc
            rw [hc] at hme
            cases hme
          have hmem := select_max_mem (seat_options s) utils s.rng hmne
          exact ⟨_, (maximizers_spec s st _ utils hmo _ hmem).1, _, h⟩

theorem student_step_preserves (s : ModelState) (st : Student) (s' : ModelState)
    (hInv : Inv s) (hst : st ∈ s.students) (h : student_step s st = some s') :
    Inv s' ∧ s'.classroom = s.classroom ∧ s'.students.length = s.students.length ∧
    (∀ i, idSeated s i → idSeated s' i) ∧
    (allSeatsOccupied s → allSeatsOccupied s') ∧
    (st.seated = false → (idSeated s' st.unique_id ∨ allSeatsOccupied s')) := by
  unfold student_step at h
  cases hseated : st.seated with
  | true =>
    rw [hseated] at h
    simp only [Bool.true_eq_false, if_false] at h
    cases hflag : st.will_to_change_seat with
    | true => rw [hflag] at h; simp at h
    | false =>
      rw [hflag] at h
      simp only [Bool.false_eq_true, if_false, Option.some_inj] at h
      subst h
      exact ⟨hInv, rfl, rfl, fun i hi => hi, fun ha => ha, fun hc => by simp at hc⟩
  | false =>
    rw [hseated] at h
    simp only [if_true] at h
    cases hcs : choose_seat s st none with
    | none => rw [hcs] at h; cases h
    | some s1 =>
      rw [hcs] at h
      cases hflag : st.will_to_change_seat with
      | true => rw [hflag] at h; simp at h
      | false =>
        rw [hflag] at h
        simp only [Bool.false_eq_true, if_false, Option.some_inj] at h
        rw [← h]
        rcases choose_seat_cases s st s1 hcs with ⟨heq, hopts⟩ | ⟨seat, hseat, g2, hcommit⟩
        · rw [heq]
          have hall := seat_options_empty_occupied s hopts
          exact ⟨hInv, rfl, rfl, fun i hi => hi, fun ha => ha, fun _ => Or.inr hall⟩
        · have hseat2 : seat ∈ s.seats := List.mem_of_mem_filter hseat
          have hempty : seat.student = none := by
            have := List.of_mem_filter hseat
            simpa using this
          have hres := commit_preserves { s with rng := g2 } st seat s1 hInv hst hseated
            hseat2 hempty hcommit
          exact ⟨hres.1, hres.2.1, hres.2.2.1, hres.2.2.2.1, hres.2.2.2.2.1,
            fun _ => Or.inl hres.2.2.2.2.2⟩

/-- The activation fold: stepping any list of roster ids preserves the
invariant, and any id stepped during the fold that ends up unseated
witnesses a fully occupied classroom. -/
theorem activate_fold (L : List ℕ) : ∀ (s0 s' : ModelState), Inv s0 →
    (L.foldlM (fun acc i =>
      match acc.students.find? (fun st => st.unique_id = i) with
      | none => none
      | some st => student_step acc st) s0) = some s' →
    Inv s' ∧ s'.classroom = s0.classroom ∧ s'.students.length = s0.students.length ∧
    (∀ i, idSeated s0 i → idSeated s' i) ∧
    (allSeatsOccupied s0 → allSeatsOccupied s') ∧
    (∀ i ∈ L, ¬ idSeated s' i → allSeatsOccupied s') := by
  induction L with
  | nil =>
    intro s0 s' hInv h
    simp only [List.foldlM_nil, pure, Option.some_inj] at h
    subst h
    exact ⟨hInv, rfl, rfl, fun i hi => hi, fun ha => ha, fun i hi => absurd hi (by simp)⟩
  | cons i L ih =>
    intro s0 s' hInv h
    rw [List.foldlM_cons] at h
    cases hfind : s0.students.find? (fun st => st.unique_id = i) with
    | none =>
      rw [hfind] at h
      simp at h
    | some st =>
      rw [hfind] at h
      dsimp only at h
      rcases Option.bind_eq_some.mp h with ⟨s_mid, hmid, h⟩
      · have hstmem : st ∈ s0.students := List.mem_of_find?_eq_some hfind
        have hstid : st.unique_id = i := by
          have := List.find?_some hfind
          simpa using this
        have hstep := student_step_preserves s0 st s_mid hInv hstmem hmid
        have hrest := ih s_mid s' hstep.1 h
        refine ⟨hrest.1, hrest.2.1.trans hstep.2.1, hrest.2.2.1.trans hstep.2.2.1,
          fun j hj => hrest.2.2.2.1 j (hstep.2.2.2.1 j hj),
          fun ha => hrest.2.2.2.2.1 (hstep.2.2.2.2.1 ha), ?_⟩
        intro j hj hns
        rcases List.mem_cons.mp hj with rfl | hjL
        · cases hseated : st.seated with
          | true =>
            exfalso
            apply hns
            apply hrest.2.2.2.1
            apply hstep.2.2.2.1
            exact ⟨st, hstmem, hstid, hseated⟩
          | false =>
            rcases hstep.2.2.2.2.2 hseated with hsd | hall
            · exfalso
              apply hns
              rw [← hstid]
              exact hrest.2.2.2.1 _ hsd
            · exact hrest.2.2.2.2.1 hall
        · exact hrest.2.2.2.2.2 j hjL hns

theorem activate_all_preserves (s s' : ModelState) (hInv : Inv s)
    (h : activate_all s = some s') :
    Inv s' ∧ s'.classroom = s.classroom ∧ s'.students.length = s.students.length ∧
    FullWhenUnseated s' := by
  unfold activate_all at h
  have hres := activate_fold (s.students.map (fun st => st.unique_id)) s s' hInv h
  refine ⟨hres.1, hres.2.1, hres.2.2.1, ?_⟩
  rintro ⟨st', hst', hsu⟩
  have hids' : s'.students.map Student.unique_id = s.students.map Student.unique_id := by
    rw [hres.1.2.1, hres.2.2.1, hInv.2.1]
  have hmemid : st'.unique_id ∈ s.students.map (fun st => st.unique_id) := by
    rw [← hids']
    exact List.mem_map.mpr ⟨st', hst', rfl⟩
  apply hres.2.2.2.2.2 st'.unique_id hmemid
  rintro ⟨st2, hst2, hid2, hs2⟩
  have hnd : (s'.students.map Student.unique_id).Nodup := by
    rw [hres.1.2.1]
    exact List.nodup_range _
  have : st2 = st' := List.inj_on_of_nodup_map hnd hst2 hst' hid2
  rw [this] at hs2
  rw [hsu] at hs2
  cases hs2

theorem admit_preserves (s s' : ModelState) (hInv : Inv s)
    (h : admit_student s = some s') : Inv s' := by
  unfold admit_student at h
  dsimp only at h
  by_cases hn : s.students.length < s.max_num_agents
  · rw [if_pos hn] at h
    cases hc2 : s.coefs.get? 2 with
    | none => rw [hc2] at h; cases h
    | some cs =>
      rw [hc2] at h
      dsimp only at h
      cases hpop : (if cs ≠ 0 then
          (match s.sociability_sequence with
           | [] => none
           | v :: rest => some (v, rest))
        else some ((0 : ℚ), s.sociability_sequence)) with
      | none => rw [hpop] at h; cases h
      | some sr =>
        rw [hpop] at h
        dsimp only at h
        cases hie : s.classroom.entrances.isEmpty with
        | true => rw [hie] at h; simp only [if_true] at h; cases h
        | false =>
          rw [hie] at h
          simp only [Bool.false_eq_true, if_false, Option.some_inj] at h
          rw [← h]
          obtain ⟨hg, hids, hSI, hTI⟩ := hInv
          refine ⟨hg, ?_, ?_, ?_⟩
          · simp only [List.map_append, List.length_append, hids, List.length_map]
            simp [List.range_succ]
          · intro st hst hseat
            rcases List.mem_append.mp hst with hst1 | hst1
            · exact hSI st hst1 hseat
            · simp only [List.mem_singleton] at hst1
              rw [hst1] at hseat
              cases hseat
          · intro t ht i hi
            rcases hTI t ht i hi with ⟨sw, hsw, h1, h2, h3⟩
            exact ⟨sw, List.mem_append_left _ hsw, h1, h2, h3⟩
  · rw [if_neg hn] at h
    simp only [Option.some_inj] at h
    rw [← h]
    exact hInv

theorem tick_preserves (s s' : ModelState) (hInv : Inv s) (h : tick s = some s') :
    Inv s' ∧ FullWhenUnseated s' := by
  unfold tick at h
  rcases Option.bind_eq_some.mp h with ⟨sa, hadmit, hact⟩
  have hInva := admit_preserves s sa hInv hadmit
  have hres := activate_all_preserves sa s' hInva hact
  exact ⟨hres.1, hres.2.2.2⟩

theorem initModel_state (classroom : ClassroomDesign) (coefs : List ℚ)
    (ds : Option (List ℕ)) (sq : Option (List ℚ)) (seed : ℕ)
    (g1 : ℕ → ℚ → ℕ → ℕ → ℚ) (g2 : List ℕ → ℕ → ℕ → ℚ) (m : ModelState)
    (h : initModel classroom coefs ds sq seed g1 g2 = some m) :
    m.classroom = classroom ∧ m.seats = mkSeats classroom ∧ m.students = [] := by
  cases sq with
  | none => exact absurd h (by simp [initModel])
  | some seq =>
    simp only [initModel] at h
    split at h
    · split at h
      · simp only [Option.some_inj] at h
        rw [← h]
        exact ⟨rfl, rfl, rfl⟩
      · exact absurd h (by simp)
    · exact absurd h (by simp)

theorem runSteps_inv : ∀ (n : ℕ) (o : Option ModelState),
    (∀ s, o = some s → Inv s ∧ FullWhenUnseated s) →
    ∀ s', runSteps n o = some s' → Inv s' ∧ FullWhenUnseated s' := by
  intro n
  induction n with
  | zero => intro o ho s' h; exact ho s' h
  | succ n ih =>
    intro o ho s' h
    unfold runSteps at h
    apply ih (o.bind tick) ?_ s' h
    intro s hs
    rcases Option.bind_eq_some.mp hs with ⟨smid, hmid, htick⟩
    exact tick_preserves smid s (ho smid hmid).1 htick

theorem runModel_inv (cfg : Config) (n : ℕ) (s : ModelState)
    (h : runModel cfg n = some s) : Inv s ∧ FullWhenUnseated s := by
  unfold runModel at h
  apply runSteps_inv n (buildModel cfg) ?_ s h
  intro s0 hs0
  unfold buildModel at hs0
  rcases Option.bind_eq_some.mp hs0 with ⟨cd, _, hinit⟩
  obtain ⟨hcls, hseats, hstud⟩ := initModel_state _ _ _ _ _ _ _ _ hinit
  constructor
  · refine ⟨?_, ?_, ?_, ?_⟩
    · rw [hseats, hcls]
    · rw [hstud]; rfl
    · intro st hst
      rw [hstud] at hst
      cases hst
    · intro t ht i hi
      rw [hseats] at ht
      have : t.student = none := by
        unfold mkSeats at ht
        rcases List.mem_flatten.mp ht with ⟨l, hl, htl⟩
        rcases List.mem_map.mp hl with ⟨x, _, hlx⟩
        subst hlx
        rcases List.mem_map.mp htl with ⟨y, _, hty⟩
        rw [← hty]
      rw [this] at hi
      cases hi
  · rintro ⟨st, hst, _⟩
    rw [hstud] at hst
    cases hst

theorem snapshot_eq_of_inv (s : ModelState) (hInv : Inv s)
    (hFull : FullWhenUnseated s) :
    get_binary_model_state s = occupied_matrix s := by
  unfold get_binary_model_state occupied_matrix
  apply List.map_congr_left
  intro x hx
  apply List.map_congr_left
  intro y hy
  rcases List.mem_filter.mp hx with ⟨hxr, hxa⟩
  rcases List.mem_filter.mp hy with ⟨hyr, hya⟩
  have hxw : x < s.classroom.width := List.mem_range.mp hxr
  have hyw : y < s.classroom.num_rows := List.mem_range.mp hyr
  have hxna : ¬ x ∈ s.classroom.aisles_x := by simpa using hxa
  have hyna : ¬ y ∈ s.classroom.aisles_y := by simpa using hya
  have hpos_nodup : (s.seats.map Seat.pos).Nodup := by
    rw [hInv.1]; exact mkSeats_pos_nodup _
  have hseat_inj := List.inj_on_of_nodup_map hpos_nodup
  have hcov : ((x, y) : ℕ × ℕ) ∈ s.seats.map Seat.pos := by
    rw [hInv.1]
    exact (mkSeats_pos_mem _ _ _).mpr ⟨hxw, hxna, hyw, hyna⟩
  rcases List.mem_map.mp hcov with ⟨t0, ht0, ht0p⟩
  cases hfind : seat_at s (x, y) with
  | none =>
    exfalso
    unfold seat_at at hfind
    have := List.find?_eq_none.mp hfind t0 ht0
    simp [ht0p] at this
  | some tp =>
    have htmem : tp ∈ s.seats := List.mem_of_find?_eq_some hfind
    have htpos : tp.pos = (x, y) := by
      have := List.find?_some hfind
      simpa using this
    cases hocc : tp.student with
    | some i =>
      rcases hInv.2.2.2 tp htmem i hocc with ⟨sw, hsw, _, _, hsw3⟩
      have hany : s.students.any (fun st => decide (st.pos = (x, y))) = true := by
        apply List.any_eq_true.mpr
        refine ⟨sw, hsw, ?_⟩
        rw [hsw3, htpos]
        simp
      rw [hany]
      simp [hocc]
    | none =>
      have hany : s.students.any (fun st => decide (st.pos = (x, y))) = false := by
        apply List.any_eq_false.mpr
        intro st hst
        simp only [decide_eq_true_eq]
        intro hp
        cases hstseat : st.seated with
        | true =>
          rcases hInv.2.2.1 st hst hstseat with ⟨tw, htw, htw1, htw2⟩
          have htwp : tw.pos = tp.pos := by rw [htw2, hp, htpos]
          have : tw = tp := hseat_inj htw htmem htwp
          rw [this, hocc] at htw1
          cases htw1
        | false =>
          exact (hFull ⟨st, hst, hstseat⟩) tp htmem hocc
      rw [hany]
      simp [hocc]

/-- **C9.**  For every reachable simulation state (any number of ticks from
any construction), the exported occupancy snapshot is the 2-D array over
the non-aisle cells only, whose entry is 1 exactly where the seat at that
cell is occupied and 0 at every empty seat — in particular an admitted but
still-unseated occupant standing on the grid contributes no spurious 1
(an unseated occupant can exist only when every seat is occupied, and the
default entrances lie on stripped aisle cells).  `np.delete` of the aisle
index lists is modelled as filtering those indices out, which coincides
with the source for in-range aisle lists (as produced by the constructor
and its documented arguments). -/
theorem snapshot_is_occupancy (cfg : Config) (n : ℕ) (s : ModelState)
    (h : runModel cfg n = some s) :
    get_binary_model_state s = occupied_matrix s := by
  rcases runModel_inv cfg n s h with ⟨hInv, hFull⟩
  exact snapshot_eq_of_inv s hInv hFull

/-- Witness for C9 at a concrete 2-tick run. -/
theorem snapshot_is_occupancy_witness :
    runModel
      { blocks := [2, 0], num_rows := 2, pos_utilities := some (zerosMat 2 1),
        entrances := none, aisles_y := none, coefs := [1, 0, 0, 0],
        degree_sequence := some [1, 1], sociability_sequence := some [0, 1],
        seed := 0, gen_er := fun _ _ _ _ => 0, gen_walts := fun _ _ _ => 0 } 2 = some mC9 ∧
    get_binary_model_state mC9 = occupied_matrix mC9 := by
  constructor
  · rfl
  · exact snapshot_is_occupancy
      { blocks := [2, 0], num_rows := 2, pos_utilities := some (zerosMat 2 1),
        entrances := none, aisles_y := none, coefs := [1, 0, 0, 0],
        degree_sequence := some [1, 1], sociability_sequence := some [0, 1],
        seed := 0, gen_er := fun _ _ _ _ => 0, gen_walts := fun _ _ _ => 0 } 2 mC9 rfl

end ABM


